import Mathlib

/-!
Shallow embedding of the chess-variant move-legality engine
(src/classes/board.py, src/classes/pieces.py, src/classes/game.py).

The board is the 8x8 grid of optional piece occupants; Python's mutable
piece objects become immutable records stored in the grid, and the object
aliasing that the source relies on (a piece's stored row/col always agrees
with the grid slot that holds it) is reflected by explicit grid updates,
with the consistency assumption stated as a hypothesis where a theorem
needs it.  Python dictionaries of candidate moves become association lists
with Python's insertion-order `update`/`del` semantics.  King objects'
mutable cached `_check` flag is kept outside the grid, as one boolean per
team in the board state, mirroring the fact that the source reads it only
through the two aliased king objects.
-/

namespace ChessVar

/-- The two sides, `PLAYER_WHITE` / `PLAYER_BLACK` of src/constants.py. -/
inductive Team where
  | white
  | black
  deriving DecidableEq, Repr

/-- Piece kinds, the `get_type` strings of src/classes/pieces.py. -/
inductive PKind where
  | pawn
  | rook
  | knight
  | bishop
  | queen
  | king
  deriving DecidableEq, Repr

/-- The opposing side. -/
def Team.other : Team → Team
  | .white => .black
  | .black => .white

/-- A piece record: team, kind, stored board position (`_row`/`_col`),
the `_first_turn` flag, and the pawn `_en_passant` flag (carried by all
kinds, read only behind a `get_type() == 'PAWN'` guard in the source). -/
structure Piece where
  team : Team
  kind : PKind
  row : Int
  col : Int
  firstTurn : Bool
  enPassant : Bool
  deriving DecidableEq, Repr

/-- A square is a (row, column) pair of Python ints. -/
abbrev Sq := Int × Int

/-- A value of the candidate-move dictionary of `Piece.move` /
`King.castle`: `None`, a captured piece, or the castle descriptor dict
`{'rook': r, 'pos': p}`. -/
inductive MVal where
  | norm : Option Piece → MVal
  | castle : Piece → Sq → MVal
  deriving DecidableEq, Repr

/-- A candidate-move dictionary: association list in insertion order. -/
abbrev Moves := List (Sq × MVal)

/-- The 8x8 grid (`Board._board`): totalised over `Int` coordinates;
all modelled code paths access only coordinates in `[0,7]`. -/
abbrev Grid := Int → Int → Option Piece

/-- Occupant lookup, `board[row][col]`. -/
def gget (g : Grid) (r c : Int) : Option Piece := g r c

/-- Slot assignment, `board[row][col] = v`. -/
def gset (g : Grid) (r c : Int) (v : Option Piece) : Grid :=
  fun r' c' => if r' = r ∧ c' = c then v else g r' c'

/-- Keys of a candidate dictionary. -/
def keys (m : Moves) : List Sq := m.map Prod.fst

/-- Python dict assignment `m[k] = v`: replaces the value of the
existing entry in place when the key is present (dictionary keys are
unique, so replacing the first occurrence is exact), otherwise appends
the new entry. -/
def dput : Moves → Sq → MVal → Moves
  | [], k, v => [(k, v)]
  | e :: m, k, v => if e.1 = k then (k, v) :: m else e :: dput m k v

/-- Python `m.update(m2)`: left-to-right `dput` of every entry of `m2`. -/
def dupdate (m m2 : Moves) : Moves :=
  m2.foldl (fun acc e => dput acc e.1 e.2) m

/-- Python `m[k]` lookup as an option (`(k in m)` is `dget m k ≠ none`). -/
def dget : Moves → Sq → Option MVal
  | [], _ => none
  | e :: m, k => if e.1 = k then some e.2 else dget m k

/-- Python `del m[k]` (total: removes the entry when present). -/
def ddel (m : Moves) (k : Sq) : Moves :=
  m.filter (fun e => !(decide (e.1 = k)))

/-- Sequential deletion of a list of keys. -/
def ddelAll (m : Moves) (ks : List Sq) : Moves :=
  ks.foldl ddel m

/-- Fuel bound for the sliding walk of `Piece.move`; a ray from an
in-bounds square leaves the 8x8 board after at most 8 steps, so 16 is
never exhausted on any call the source makes. -/
def slideFuel : Nat := 16

/-- `Piece.move` of src/classes/pieces.py: probes square (row, col);
an empty square is recorded (and the walk continues when `rec` or
`first`), an enemy-occupied square is recorded as a capture and stops
the walk, a friendly square or an off-board square yields nothing.
The Python recursion drops `first` on the recursive call. -/
def move (g : Grid) : Nat → Int → Int → Team → Int → Int → Bool → Bool → Moves
  | 0, _, _, _, _, _, _, _ => []
  | fuel + 1, row, col, team, vert, horiz, rec, first =>
    if row < 0 ∨ row > 7 ∨ col < 0 ∨ col > 7 then []
    else
      match gget g row col with
      | none =>
        let ml : Moves := [((row, col), MVal.norm none)]
        if rec ∨ first then
          dupdate ml (move g fuel (row + vert) (col + horiz) team vert horiz rec false)
        else ml
      | some pos =>
        if pos.team ≠ team then [((row, col), MVal.norm (some pos))]
        else []

/-- Pawn movement direction: white decreases the row index. -/
def pawnDir (t : Team) : Int :=
  match t with
  | .white => -1
  | .black => 1

/-- `Pawn.get_moves`: forward walk (double step enabled by `_first_turn`),
diagonal probes, then the two filtering passes — a standard move may not
capture, a diagonal move must capture, where an empty diagonal square is
turned into an en-passant capture when the square beside the mover in the
destination column holds a pawn whose `_en_passant` flag is set. -/
def pawnGetMoves (p : Piece) (g : Grid) : Moves :=
  let d := pawnDir p.team
  let stand := move g slideFuel (p.row + d) p.col p.team d 0 false p.firstTurn
  let capture := dupdate (move g slideFuel (p.row + d) (p.col - 1) p.team 0 0 false false)
    (move g slideFuel (p.row + d) (p.col + 1) p.team 0 0 false false)
  let ktbr1 := (stand.filter (fun e => !(decide (e.2 = MVal.norm none)))).map Prod.fst
  let capRes := capture.map (fun e =>
    if e.2 = MVal.norm none then
      match gget g p.row e.1.2 with
      | some ep =>
        if ep.kind = PKind.pawn ∧ ep.enPassant then ((e.1, MVal.norm (some ep)), none)
        else (e, some e.1)
      | none => (e, some e.1)
    else (e, (none : Option Sq)))
  let capture2 := capRes.map Prod.fst
  let ktbr2 := capRes.filterMap Prod.snd
  ddelAll (dupdate stand capture2) (ktbr1 ++ ktbr2)

/-- `Rook.get_moves`: the four orthogonal sliding walks. -/
def rookGetMoves (p : Piece) (g : Grid) : Moves :=
  dupdate (dupdate (dupdate
    (move g slideFuel (p.row - 1) p.col p.team (-1) 0 true false)
    (move g slideFuel (p.row + 1) p.col p.team 1 0 true false))
    (move g slideFuel p.row (p.col - 1) p.team 0 (-1) true false))
    (move g slideFuel p.row (p.col + 1) p.team 0 1 true false)

/-- `Knight.get_moves`: the eight fixed offsets. -/
def knightGetMoves (p : Piece) (g : Grid) : Moves :=
  dupdate (dupdate (dupdate (dupdate (dupdate (dupdate (dupdate
    (move g slideFuel (p.row - 2) (p.col - 1) p.team 0 0 false false)
    (move g slideFuel (p.row - 2) (p.col + 1) p.team 0 0 false false))
    (move g slideFuel (p.row + 2) (p.col - 1) p.team 0 0 false false))
    (move g slideFuel (p.row + 2) (p.col + 1) p.team 0 0 false false))
    (move g slideFuel (p.row - 1) (p.col - 2) p.team 0 0 false false))
    (move g slideFuel (p.row + 1) (p.col - 2) p.team 0 0 false false))
    (move g slideFuel (p.row - 1) (p.col + 2) p.team 0 0 false false))
    (move g slideFuel (p.row + 1) (p.col + 2) p.team 0 0 false false)

/-- `Bishop.get_moves`: the four diagonal sliding walks. -/
def bishopGetMoves (p : Piece) (g : Grid) : Moves :=
  dupdate (dupdate (dupdate
    (move g slideFuel (p.row - 1) (p.col - 1) p.team (-1) (-1) true false)
    (move g slideFuel (p.row - 1) (p.col + 1) p.team (-1) 1 true false))
    (move g slideFuel (p.row + 1) (p.col - 1) p.team 1 (-1) true false))
    (move g slideFuel (p.row + 1) (p.col + 1) p.team 1 1 true false)

/-- `Queen.get_moves`: all eight sliding walks, in source order. -/
def queenGetMoves (p : Piece) (g : Grid) : Moves :=
  dupdate (dupdate (dupdate (dupdate (dupdate (dupdate (dupdate
    (move g slideFuel (p.row - 1) p.col p.team (-1) 0 true false)
    (move g slideFuel p.row (p.col - 1) p.team 0 (-1) true false))
    (move g slideFuel (p.row + 1) p.col p.team 1 0 true false))
    (move g slideFuel p.row (p.col + 1) p.team 0 1 true false))
    (move g slideFuel (p.row - 1) (p.col - 1) p.team (-1) (-1) true false))
    (move g slideFuel (p.row + 1) (p.col - 1) p.team 1 (-1) true false))
    (move g slideFuel (p.row + 1) (p.col + 1) p.team 1 1 true false))
    (move g slideFuel (p.row - 1) (p.col + 1) p.team (-1) 1 true false)

/-- `King.check_rook`: the corner occupant must exist, be a rook, and be
of the king's team (the `_first_turn` flag of the rook is not examined). -/
def checkRook (k : Piece) (rook : Option Piece) : Bool :=
  match rook with
  | some r => decide (r.kind = PKind.rook ∧ r.team = k.team)
  | none => false

/-- Queenside half of one iteration of the `King.castle` loop: a path
square in column 1 adds the descriptor with destination (row,2) and rook
relocation to (row,3), when the corner rook passes `check_rook`. -/
def castleStepQ (g : Grid) (k : Piece) (sq : Sq) (cs : Moves) : Moves :=
  if sq.2 = 1 then
    match gget g k.row 0 with
    | some rook =>
      if checkRook k (some rook) then dput cs (k.row, 2) (MVal.castle rook (k.row, 3)) else cs
    | none => cs
  else cs

/-- Kingside half of one iteration of the `King.castle` loop: a path
square in column 6 adds the descriptor with destination (row,6) and rook
relocation to (row,5), when the corner rook passes `check_rook`. -/
def castleStepK (g : Grid) (k : Piece) (sq : Sq) (cs : Moves) : Moves :=
  if sq.2 = 6 then
    match gget g k.row 7 with
    | some rook =>
      if checkRook k (some rook) then dput cs (k.row, sq.2) (MVal.castle rook (k.row, 5))
      else cs
    | none => cs
  else cs

def castleFold (g : Grid) (k : Piece) : List Sq → Moves → Moves
  | [], cs => cs
  | sq :: rest, cs => castleFold g k rest (castleStepK g k sq (castleStepQ g k sq cs))

/-- `King.castle`: when the king has not moved, slide west and east from
the king's square; descriptors are produced from the reachable path
squares in columns 1 and 6. -/
def castle (g : Grid) (k : Piece) : Moves :=
  let path : Moves :=
    if k.firstTurn then
      dupdate (move g slideFuel k.row (k.col - 1) k.team 0 (-1) true false)
        (move g slideFuel k.row (k.col + 1) k.team 0 1 true false)
    else []
  castleFold g k (keys path) []

/-- `King.get_moves`: the eight single-square probes, then the castling
descriptors. -/
def kingGetMoves (p : Piece) (g : Grid) : Moves :=
  dupdate (dupdate (dupdate (dupdate (dupdate (dupdate (dupdate (dupdate
    (move g slideFuel (p.row - 1) p.col p.team 0 0 false false)
    (move g slideFuel p.row (p.col - 1) p.team 0 0 false false))
    (move g slideFuel (p.row + 1) p.col p.team 0 0 false false))
    (move g slideFuel p.row (p.col + 1) p.team 0 0 false false))
    (move g slideFuel (p.row - 1) (p.col - 1) p.team 0 0 false false))
    (move g slideFuel (p.row + 1) (p.col - 1) p.team 0 0 false false))
    (move g slideFuel (p.row + 1) (p.col + 1) p.team 0 0 false false))
    (move g slideFuel (p.row - 1) (p.col + 1) p.team 0 0 false false))
    (castle g p)

/-- Dynamic dispatch of `piece.get_moves(board)` on the piece's class. -/
def getMoves (p : Piece) (g : Grid) : Moves :=
  match p.kind with
  | .pawn => pawnGetMoves p g
  | .rook => rookGetMoves p g
  | .knight => knightGetMoves p g
  | .bishop => bishopGetMoves p g
  | .queen => queenGetMoves p g
  | .king => kingGetMoves p g

/-- The 64 board squares in the row-major order of the nested `for` loops. -/
def allPos : List Sq :=
  (List.range 8).flatMap (fun r => (List.range 8).map (fun c => (Int.ofNat r, Int.ofNat c)))

/-- Scan step of `King.check`: one candidate dictionary of one enemy
piece.  A captured value identical to the king object sets the cached
flag and breaks; every other examined item resets the flag to false.
Returns the flag together with whether the scan broke. -/
def innerScan (ko : Option Piece) : Moves → Bool → Bool × Bool
  | [], c => (c, false)
  | e :: rest, _ =>
    if (match ko with
        | some k => decide (e.2 = MVal.norm (some k))
        | none => false) then (true, true)
    else innerScan ko rest false

/-- The row-major square scan of `King.check`, threading the cached
`_check` flag and stopping at the first attacker found. -/
def checkScanAux (g : Grid) (team : Team) (ko : Option Piece) : List Sq → Bool → Bool
  | [], c => c
  | sq :: rest, c =>
    match gget g sq.1 sq.2 with
    | some p =>
      if p.team ≠ team then
        let r := innerScan ko (getMoves p g) c
        if r.2 then r.1 else checkScanAux g team ko rest r.1
      else checkScanAux g team ko rest c
    | none => checkScanAux g team ko rest c

/-- `King.check` of src/classes/pieces.py: `team` is the king object's
team, `ko` the king object as currently resident on the grid (`none` when
the aliased king object no longer occupies any square, in which case no
captured value can be identical to it), `cached` the object's `_check`
flag on entry; the result is the flag's final value, which the method
returns. -/
def kingCheck (g : Grid) (team : Team) (ko : Option Piece) (cached : Bool) : Bool :=
  checkScanAux g team ko allPos cached

/-- First piece of the given team and kind `KING` in row-major scan
order: the grid-resident value of the aliased king object of
`Board._kings` (unique while the one-king-per-team invariant holds). -/
def findKing (g : Grid) (team : Team) : Option Piece :=
  (allPos.filterMap (fun sq => gget g sq.1 sq.2)).find?
    (fun p => decide (p.kind = PKind.king ∧ p.team = team))

/-- Per-team inventory of `Board._pieces`. -/
abbrev Inventory := Team → PKind → Int

/-- Board state: the grid, the two king objects' cached `_check` flags,
the pending `_promoted_pawn`, and the `_pieces` inventory. -/
structure BState where
  grid : Grid
  checkW : Bool
  checkB : Bool
  promoted : Option Piece
  pieces : Inventory

/-- Read the cached check flag of a team's king object. -/
def BState.flag (st : BState) (t : Team) : Bool :=
  match t with
  | .white => st.checkW
  | .black => st.checkB

/-- Write the cached check flag of a team's king object. -/
def BState.setFlag (st : BState) (t : Team) (b : Bool) : BState :=
  match t with
  | .white => { st with checkW := b }
  | .black => { st with checkB := b }

/-- Replace the grid of a board state. -/
def BState.withGrid (st : BState) (g : Grid) : BState := { st with grid := g }

/-- `Board.swap`: exchange the grid contents of the piece's stored square
and the destination, then `change_pos` updates the moving piece's stored
position — which, because the grid slot at the destination aliases the
piece object whenever `grid[piece.pos] = piece`, is reflected by writing
the repositioned record at the destination.  Returns the updated grid and
the repositioned piece value. -/
def swap (g : Grid) (p : Piece) (r c : Int) : Grid × Piece :=
  let a := gget g p.row p.col
  let b := gget g r c
  let g1 := gset (gset g p.row p.col b) r c a
  let p' := { p with row := r, col := c }
  (gset g1 r c (some p'), p')

/-- One probe of `Board.validate_moves` on a non-castle candidate:
remove the captured piece (if any) from its stored square, swap the mover
to the candidate square, run `King.check` for the mover's team (updating
that king's cached flag), swap back, restore the captured piece.  Returns
the state after the probe and whether the candidate key is to be removed.
A castle candidate (dict value) is skipped entirely. -/
def probeOne (st : BState) (p : Piece) (e : Sq × MVal) : BState × Bool :=
  match e.2 with
  | MVal.castle _ _ => (st, false)
  | MVal.norm copt =>
    let g := st.grid
    let g1 := match copt with
      | some cp => gset g cp.row cp.col none
      | none => g
    let sp := swap g1 p e.1.1 e.1.2
    let flag1 := kingCheck sp.1 p.team (findKing sp.1 p.team) (st.flag p.team)
    let sp2 := swap sp.1 sp.2 p.row p.col
    let g4 := match copt with
      | some cp => gset sp2.1 cp.row cp.col (some cp)
      | none => sp2.1
    (((st.setFlag p.team flag1).withGrid g4), flag1)

/-- The probing loop of `Board.validate_moves`, collecting the keys to be
removed in iteration order. -/
def validateAux (p : Piece) : BState → Moves → BState × List Sq
  | st, [] => (st, [])
  | st, e :: rest =>
    let r1 := probeOne st p e
    let r2 := validateAux p r1.1 rest
    (r2.1, if r1.2 then e.1 :: r2.2 else r2.2)

/-- `Board.validate_moves`: probe every candidate, then delete the
invalidated keys from the dictionary.  Returns the final board state and
the filtered dictionary (the source mutates both in place). -/
def validate_moves (st : BState) (p : Piece) (moves : Moves) : BState × Moves :=
  let r := validateAux p st moves
  (r.1, ddelAll moves r.2)

/-- `Board.clear_en_passant`: falsify the `_en_passant` flag of every
pawn of the given team on the 8x8 grid. -/
def clear_en_passant (g : Grid) (turnTeam : Team) : Grid :=
  fun r c =>
    if 0 ≤ r ∧ r ≤ 7 ∧ 0 ≤ c ∧ c ≤ 7 then
      match g r c with
      | some p =>
        if p.team = turnTeam ∧ p.kind = PKind.pawn then some { p with enPassant := false }
        else some p
      | none => none
    else g r c

/-- `Board.remove`: if the captured object is a piece, clear its stored
square and decrement its (team, kind) inventory count. -/
def remove (st : BState) (copt : Option Piece) : BState :=
  match copt with
  | none => st
  | some cp =>
    { st with grid := gset st.grid cp.row cp.col none,
              pieces := fun t k =>
                if t = cp.team ∧ k = cp.kind then st.pieces t k - 1 else st.pieces t k }

/-- `Pawn.en_passant`: after the move, a pawn that is still on its first
turn and sits on rank 3 or 4 with an enemy pawn immediately beside it on
the same rank raises its `_en_passant` flag (the flag is never lowered
here). -/
def pawnEPCheck (g : Grid) (p : Piece) : Bool :=
  p.enPassant ||
    (p.firstTurn && decide (3 ≤ p.row ∧ p.row ≤ 4) &&
      (let left := if p.col > 0 then gget g p.row (p.col - 1) else none
       let right := if p.col < 7 then gget g p.row (p.col + 1) else none
       (match left with
        | some l => decide (l.kind = PKind.pawn ∧ l.team ≠ p.team)
        | none => false) ||
       (match right with
        | some rr => decide (rr.kind = PKind.pawn ∧ rr.team ≠ p.team)
        | none => false)))

/-- `Board.update_board`: remove the captured piece, swap the mover to
its destination; for a pawn, evaluate en-passant eligibility and record a
pending promotion on the far rank; re-run `King.check` for both kings (in
the `_kings` order black, white); finally `not_first` lowers the mover's
`_first_turn` flag.  The pending-promotion slot aliases the mover object,
so it receives the mover's final record. -/
def update_board (st : BState) (p : Piece) (r c : Int) (captured : Option Piece) : BState :=
  let st1 := remove st captured
  let sp := swap st1.grid p r c
  let ep := if sp.2.kind = PKind.pawn then pawnEPCheck sp.1 sp.2 else sp.2.enPassant
  let p3 := { sp.2 with enPassant := ep }
  let g3 := gset sp.1 r c (some p3)
  let p4 := { p3 with firstTurn := false }
  let promoted' :=
    if p3.kind = PKind.pawn ∧ (r = 0 ∨ r = 7) then some p4 else st1.promoted
  let checkB' := kingCheck g3 Team.black (findKing g3 Team.black) st1.checkB
  let checkW' := kingCheck g3 Team.white (findKing g3 Team.white) st1.checkW
  { grid := gset g3 r c (some p4), checkW := checkW', checkB := checkB',
    promoted := promoted', pieces := st1.pieces }

/-- The promotion kind displayed at each choice column of
`Board.promote_pawn` (callers guarantee the column is in `[2,5]`). -/
def promoChoice (c : Int) : PKind :=
  if c = 2 then PKind.queen
  else if c = 3 then PKind.knight
  else if c = 4 then PKind.rook
  else PKind.bishop

/-- `Board.promote_pawn`: replace the pawn in place by a newly
constructed piece of the chosen kind on the same square and team,
increment that (team, kind) inventory count, clear the pending state. -/
def promote_pawn (st : BState) (pawn : Piece) (choiceCol : Int) : BState :=
  let np : Piece := { team := pawn.team, kind := promoChoice choiceCol,
                      row := pawn.row, col := pawn.col,
                      firstTurn := true, enPassant := false }
  { st with grid := gset st.grid pawn.row pawn.col (some np),
            pieces := fun t k =>
              if t = pawn.team ∧ k = np.kind then st.pieces t k + 1 else st.pieces t k,
            promoted := none }

/-- Game state of src/classes/game.py: the board, the `_turn` team, the
`_chosen` piece, and the `_valid_moves` dictionary. -/
structure GState where
  board : BState
  turn : Team
  chosen : Option Piece
  validMoves : Moves

/-- `Game.update_turn`: flip the turn to the other team, then clear the
en-passant status of every pawn of the new turn's team. -/
def update_turn (s : GState) : GState :=
  let t' := s.turn.other
  { s with turn := t',
           board := s.board.withGrid (clear_en_passant s.board.grid t') }

/-- `Game.make_move`: reset `_chosen`; if the clicked square is a key of
the legal-move dictionary, apply the move (two `update_board` calls for a
castle descriptor, one otherwise), clear the dictionary and update the
turn, returning no warning; otherwise warn and change nothing else.
The second component records whether the invalid-choice warning fired. -/
def make_move (s : GState) (p : Piece) (r c : Int) : GState × Bool :=
  let s1 := { s with chosen := none }
  match dget s1.validMoves (r, c) with
  | none => (s1, true)
  | some v =>
    let b' :=
      match v with
      | MVal.castle rook rpos =>
        update_board (update_board s1.board p r c none) rook rpos.1 rpos.2 none
      | MVal.norm copt => update_board s1.board p r c copt
    (update_turn { s1 with board := b', validMoves := [] }, false)

/-- `Game.choose`: dispatch of a square click.  While a promotion is
pending, only a click in the choice region (row 3, columns 2..5) is
accepted and resolves the promotion; with a piece already chosen the
click is handed to `make_move`; otherwise a click on an own-team piece
computes and filters its moves, selecting the piece when legal moves
remain.  Every other click fires the invalid-choice warning and changes
nothing.  The second component records whether the warning fired. -/
def choose (s : GState) (r c : Int) : GState × Bool :=
  match s.board.promoted with
  | some pp =>
    if r = 3 ∧ 2 ≤ c ∧ c ≤ 5 then
      ({ s with board := promote_pawn s.board pp c }, false)
    else (s, true)
  | none =>
    match s.chosen with
    | some ch => make_move s ch r c
    | none =>
      match gget s.board.grid r c with
      | some p =>
        if p.team = s.turn then
          let mv := getMoves p s.board.grid
          let vr := validate_moves s.board p mv
          if vr.2 = [] then ({ s with board := vr.1, validMoves := vr.2 }, true)
          else ({ s with board := vr.1, validMoves := vr.2, chosen := some p }, false)
        else (s, true)
      | none => (s, true)

/-- Some square of `l` holds an enemy piece whose raw move-generation
output contains the king object as a captured value. -/
def attackedIn (g : Grid) (k : Piece) (l : List Sq) : Bool :=
  l.any (fun sq =>
    match gget g sq.1 sq.2 with
    | some p =>
      decide (p.team ≠ k.team) && (getMoves p g).any (fun e => decide (e.2 = MVal.norm (some k)))
    | none => false)

/-- Some square of `l` holds an enemy piece with a non-empty raw
move-generation output. -/
def enemyMoveIn (g : Grid) (team : Team) (l : List Sq) : Bool :=
  l.any (fun sq =>
    match gget g sq.1 sq.2 with
    | some p => decide (p.team ≠ team) && !(getMoves p g).isEmpty
    | none => false)

/-- Raw-attack check of spec section 4.4: some enemy piece's unfiltered
move-generation output contains the king's square as a capture target. -/
def attacked (g : Grid) (k : Piece) : Bool :=
  attackedIn g k allPos

/-- Modelled from the spec: `Board.checkmate` is called by
`Game.get_winner` (src/classes/game.py) but no such method is defined in
src/classes/board.py; per spec section 4.4 it is true iff that team's
king is currently in check and no piece belonging to that team has any
legality-filtered move available (scanning every friendly piece and
filtering its generated moves). -/
def checkmate (st : BState) (team : Team) : Bool :=
  (match findKing st.grid team with
   | some k => attacked st.grid k
   | none => false) &&
  allPos.all (fun sq =>
    match gget st.grid sq.1 sq.2 with
    | some p =>
      if p.team = team then decide ((validate_moves st p (getMoves p st.grid)).2 = [])
      else true
    | none => true)

/-- Game status, `UNFINISHED` or the winning team. -/
inductive GRes where
  | unfinished
  | won : Team → GRes
  deriving DecidableEq, Repr

/-- `Game.get_winner`: white wins when black is checkmated, else black
wins when white is checkmated, else unfinished. -/
def get_winner (st : BState) : GRes :=
  if checkmate st Team.black then GRes.won Team.white
  else if checkmate st Team.white then GRes.won Team.black
  else GRes.unfinished

/-- One starting back-rank / pawn-rank occupant of `Board.set_up_board`. -/
def initPiece (r c : Int) : Option Piece :=
  let team : Team := if r < 2 then Team.black else Team.white
  if r = 0 ∨ r = 7 then
    if c = 0 ∨ c = 7 then some ⟨team, PKind.rook, r, c, true, false⟩
    else if c = 1 ∨ c = 6 then some ⟨team, PKind.knight, r, c, true, false⟩
    else if c = 2 ∨ c = 5 then some ⟨team, PKind.bishop, r, c, true, false⟩
    else if c = 3 then some ⟨team, PKind.queen, r, c, true, false⟩
    else some ⟨team, PKind.king, r, c, true, false⟩
  else if r = 1 ∨ r = 6 then some ⟨team, PKind.pawn, r, c, true, false⟩
  else none

/-- The starting grid. -/
def initGrid : Grid := fun r c =>
  if 0 ≤ r ∧ r ≤ 7 ∧ 0 ≤ c ∧ c ≤ 7 then initPiece r c else none

/-- The starting inventory of `Board.set_up_pieces`. -/
def initPieces : Inventory := fun _ k =>
  match k with
  | .pawn => 8
  | .rook => 2
  | .knight => 2
  | .bishop => 2
  | .queen => 1
  | .king => 1

/-- The starting board state. -/
def initBState : BState :=
  { grid := initGrid, checkW := false, checkB := false,
    promoted := none, pieces := initPieces }

/-- The starting game state of `Game.reset`. -/
def initGState : GState :=
  { board := initBState, turn := Team.white, chosen := none, validMoves := [] }



theorem gget_gset (g : Grid) (r c : Int) (v : Option Piece) (r' c' : Int) :
    gget (gset g r c v) r' c' = if r' = r ∧ c' = c then v else gget g r' c' := rfl

theorem mem_dput {m : Moves} {k : Sq} {v : MVal} {e : Sq × MVal} (h : e ∈ dput m k v) :
    e = (k, v) ∨ e ∈ m := by
  induction m with
  | nil => simpa [dput] using h
  | cons x m' ih =>
    unfold dput at h
    split at h
    · rcases List.mem_cons.1 h with h1 | h1
      · exact Or.inl h1
      · exact Or.inr (List.mem_cons_of_mem _ h1)
    · rcases List.mem_cons.1 h with h1 | h1
      · exact Or.inr (h1 ▸ List.mem_cons_self _ _)
      · rcases ih h1 with h2 | h2
        · exact Or.inl h2
        · exact Or.inr (List.mem_cons_of_mem _ h2)

theorem mem_dupdate {a b : Moves} {e : Sq × MVal} (h : e ∈ dupdate a b) :
    e ∈ a ∨ e ∈ b := by
  induction b generalizing a with
  | nil => exact Or.inl h
  | cons x b' ih =>
    rcases ih (a := dput a x.1 x.2) h with h1 | h1
    · rcases mem_dput h1 with h2 | h2
      · right
        simp [h2]
      · exact Or.inl h2
    · exact Or.inr (List.mem_cons_of_mem _ h1)

theorem mem_keys {m : Moves} {kk : Sq} : kk ∈ keys m ↔ ∃ e ∈ m, e.1 = kk := by
  simp [keys, List.mem_map, eq_comm]

theorem keys_dput {m : Moves} {k : Sq} {v : MVal} {kk : Sq} :
    kk ∈ keys (dput m k v) ↔ kk ∈ keys m ∨ kk = k := by
  induction m with
  | nil => simp [dput, keys]
  | cons x m' ih =>
    unfold dput
    split
    · rename_i hx
      simp only [keys, List.map_cons, List.mem_cons, hx]
      tauto
    · simp only [keys, List.map_cons, List.mem_cons] at *
      rw [ih]
      tauto

theorem keys_dupdate {a b : Moves} {kk : Sq} :
    kk ∈ keys (dupdate a b) ↔ kk ∈ keys a ∨ kk ∈ keys b := by
  induction b generalizing a with
  | nil => simp [dupdate, keys]
  | cons x b' ih =>
    show kk ∈ keys (dupdate (dput a x.1 x.2) b') ↔ _
    rw [ih, keys_dput]
    simp only [keys, List.map_cons, List.mem_cons]
    tauto

theorem dget_dput_same {m : Moves} {k : Sq} {v : MVal} : dget (dput m k v) k = some v := by
  induction m with
  | nil => simp [dput, dget]
  | cons x m' ih =>
    unfold dput
    split
    · simp [dget]
    · rename_i hx
      simpa [dget, hx] using ih

theorem dget_dput_ne {m : Moves} {k k' : Sq} {v : MVal} (h : k' ≠ k) :
    dget (dput m k v) k' = dget m k' := by
  induction m with
  | nil =>
    have hkk : ¬ (k : Sq) = k' := fun hc => h hc.symm
    simp [dput, dget, hkk]
  | cons x m' ih =>
    unfold dput
    split
    · rename_i hx
      have : ¬ (k : Sq) = k' := fun hc => h hc.symm
      simp [dget, hx, this]
    · rename_i hx
      by_cases hk' : x.1 = k'
      · simp [dget, hk']
      · simpa [dget, hk'] using ih

theorem mem_ddelAll {m : Moves} {ks : List Sq} {e : Sq × MVal} :
    e ∈ ddelAll m ks ↔ e ∈ m ∧ ∀ kk ∈ ks, e.1 ≠ kk := by
  induction ks generalizing m with
  | nil => simp [ddelAll]
  | cons k ks' ih =>
    show e ∈ ddelAll (ddel m k) ks' ↔ _
    rw [ih]
    unfold ddel
    simp only [List.mem_filter, Bool.not_eq_eq_eq_not, Bool.not_true, decide_eq_false_iff_not,
      List.mem_cons]
    constructor
    · rintro ⟨⟨hm, hk⟩, hks⟩
      refine ⟨hm, ?_⟩
      rintro kk (rfl | hkk)
      · exact hk
      · exact hks kk hkk
    · rintro ⟨hm, hall⟩
      exact ⟨⟨hm, hall k (Or.inl rfl)⟩, fun kk hkk => hall kk (Or.inr hkk)⟩


/-- Every entry of `Piece.move` lies on the board, records exactly the
probed square's occupant as its captured value, and never targets a
square held by a friendly piece. -/
theorem move_mem {g : Grid} {t : Team} {v h : Int} :
    ∀ (fuel : Nat) (r c : Int) (rec first : Bool) (e : Sq × MVal),
      e ∈ move g fuel r c t v h rec first →
      (0 ≤ e.1.1 ∧ e.1.1 ≤ 7 ∧ 0 ≤ e.1.2 ∧ e.1.2 ≤ 7) ∧
      e.2 = MVal.norm (gget g e.1.1 e.1.2) ∧
      ∀ q, gget g e.1.1 e.1.2 = some q → ¬ q.team = t := by
  intro fuel
  induction fuel with
  | zero => intro r c rec first e he; simp [move] at he
  | succ f ih =>
    intro r c rec first e he
    unfold move at he
    split at he
    · simp at he
    · rename_i hb
      push_neg at hb
      split at he
      · rename_i hq
        split at he
        · rcases mem_dupdate he with h1 | h1
          · rw [List.mem_singleton] at h1
            subst h1
            dsimp only
            refine ⟨⟨by omega, by omega, by omega, by omega⟩, by rw [hq], ?_⟩
            intro q hq2
            rw [hq] at hq2
            cases hq2
          · exact ih _ _ _ _ _ h1
        · rw [List.mem_singleton] at he
          subst he
          dsimp only
          refine ⟨⟨by omega, by omega, by omega, by omega⟩, by rw [hq], ?_⟩
          intro q hq2
          rw [hq] at hq2
          cases hq2
      · rename_i pos hq
        split at he
        · rename_i hteam
          rw [List.mem_singleton] at he
          subst he
          dsimp only
          refine ⟨⟨by omega, by omega, by omega, by omega⟩, by rw [hq], ?_⟩
          intro q hq2
          rw [hq] at hq2
          injection hq2 with hq3
          exact hq3 ▸ hteam
        · simp at he

/-- A non-sliding, non-first probe records at most its own square. -/
theorem move_nonrec {g : Grid} {t : Team} {v h : Int} {fuel : Nat} {r c : Int}
    {e : Sq × MVal} (he : e ∈ move g fuel r c t v h false false) : e.1 = (r, c) := by
  cases fuel with
  | zero => simp [move] at he
  | succ f =>
    unfold move at he
    split at he
    · simp at he
    · split at he
      · split at he
        · rename_i hrec
          simp at hrec
        · rw [List.mem_singleton] at he
          subst he
          rfl
      · split at he
        · rw [List.mem_singleton] at he
          subst he
          rfl
        · simp at he

/-- A horizontal sliding walk stays on its starting row. -/
theorem move_row0 {g : Grid} {t : Team} {h : Int} :
    ∀ (fuel : Nat) (r c : Int) (rec first : Bool) (e : Sq × MVal),
      e ∈ move g fuel r c t 0 h rec first → e.1.1 = r := by
  intro fuel
  induction fuel with
  | zero => intro r c rec first e he; simp [move] at he
  | succ f ih =>
    intro r c rec first e he
    unfold move at he
    split at he
    · simp at he
    · split at he
      · split at he
        · rcases mem_dupdate he with h1 | h1
          · rw [List.mem_singleton] at h1
            subst h1
            rfl
          · have h2 := ih _ _ _ _ _ h1
            omega
        · rw [List.mem_singleton] at he
          subst he
          rfl
      · split at he
        · rw [List.mem_singleton] at he
          subst he
          rfl
        · simp at he

/-- A rightward sliding walk never visits a column left of its start. -/
theorem move_col_ge {g : Grid} {t : Team} {h : Int} (hpos : 0 < h) :
    ∀ (fuel : Nat) (r c : Int) (rec first : Bool) (e : Sq × MVal),
      e ∈ move g fuel r c t 0 h rec first → c ≤ e.1.2 := by
  intro fuel
  induction fuel with
  | zero => intro r c rec first e he; simp [move] at he
  | succ f ih =>
    intro r c rec first e he
    unfold move at he
    split at he
    · simp at he
    · split at he
      · split at he
        · rcases mem_dupdate he with h1 | h1
          · rw [List.mem_singleton] at h1
            subst h1
            dsimp only
            omega
          · have h2 := ih _ _ _ _ _ h1
            omega
        · rw [List.mem_singleton] at he
          subst he
          dsimp only
          omega
      · split at he
        · rw [List.mem_singleton] at he
          subst he
          dsimp only
          omega
        · simp at he

/-- A leftward sliding walk never visits a column right of its start. -/
theorem move_col_le {g : Grid} {t : Team} {h : Int} (hneg : h < 0) :
    ∀ (fuel : Nat) (r c : Int) (rec first : Bool) (e : Sq × MVal),
      e ∈ move g fuel r c t 0 h rec first → e.1.2 ≤ c := by
  intro fuel
  induction fuel with
  | zero => intro r c rec first e he; simp [move] at he
  | succ f ih =>
    intro r c rec first e he
    unfold move at he
    split at he
    · simp at he
    · split at he
      · split at he
        · rcases mem_dupdate he with h1 | h1
          · rw [List.mem_singleton] at h1
            subst h1
            dsimp only
            omega
          · have h2 := ih _ _ _ _ _ h1
            omega
        · rw [List.mem_singleton] at he
          subst he
          dsimp only
          omega
      · split at he
        · rw [List.mem_singleton] at he
          subst he
          dsimp only
          omega
        · simp at he

/-- Well-formedness of one candidate entry relative to the board: the
captured piece (if any) occupies its stored square and is not stored at
the mover's square — exactly what `Piece.get_moves` produces on a
position-consistent grid. -/
def capOK (g : Grid) (p : Piece) (e : Sq × MVal) : Bool :=
  match e.2 with
  | MVal.norm (some cp) =>
    decide (gget g cp.row cp.col = some cp ∧ ¬(cp.row = p.row ∧ cp.col = p.col))
  | _ => true

theorem probeOne_grid {st : BState} {p : Piece} {e : Sq × MVal}
    (h1 : gget st.grid p.row p.col = some p)
    (h2 : capOK st.grid p e = true) :
    (probeOne st p e).1.grid = st.grid := by
  obtain ⟨k, val⟩ := e
  cases val with
  | castle rk rp => rfl
  | norm copt =>
    cases copt with
    | none =>
      show (swap (swap st.grid p k.1 k.2).1 (swap st.grid p k.1 k.2).2 p.row p.col).1 = st.grid
      funext r' c'
      simp only [swap, gset, gget] at h1 ⊢
      split_ifs <;> simp_all
    | some cp =>
      simp only [capOK, decide_eq_true_eq] at h2
      obtain ⟨hc1, hc2⟩ := h2
      show (gset (swap (swap (gset st.grid cp.row cp.col none) p k.1 k.2).1
          (swap (gset st.grid cp.row cp.col none) p k.1 k.2).2 p.row p.col).1
          cp.row cp.col (some cp)) = st.grid
      funext r' c'
      simp only [swap, gset, gget] at h1 hc1 ⊢
      split_ifs <;> simp_all

theorem validateAux_grid {p : Piece} :
    ∀ (moves : Moves) (st : BState),
      gget st.grid p.row p.col = some p →
      (∀ e ∈ moves, capOK st.grid p e = true) →
      (validateAux p st moves).1.grid = st.grid := by
  intro moves
  induction moves with
  | nil => intro st _ _; rfl
  | cons e rest ih =>
    intro st h1 h2
    show (validateAux p (probeOne st p e).1 rest).1.grid = st.grid
    have hg : (probeOne st p e).1.grid = st.grid :=
      probeOne_grid h1 (h2 e (List.mem_cons_self _ _))
    rw [ih (probeOne st p e).1 (by rw [hg]; exact h1)
      (by rw [hg]; intro e' he'; exact h2 e' (List.mem_cons_of_mem _ he')), hg]

/-- C1.  For every piece, every well-formed candidate move set, and
every board state, the legality filter `Board.validate_moves` leaves
every square of the board grid — and with it every surviving piece's
stored position, which the grid slots record — identical to its pre-call
state: on each probed non-castle candidate the captured piece (if any)
is restored to its original square and the mover is swapped back, for
every candidate including the last one evaluated.  Castle candidates are
skipped and touch nothing. -/
theorem validate_moves_preserves_grid (st : BState) (p : Piece) (moves : Moves)
    (h1 : gget st.grid p.row p.col = some p)
    (h2 : ∀ e ∈ moves, capOK st.grid p e = true) :
    (validate_moves st p moves).1.grid = st.grid :=
  validateAux_grid moves st h1 h2

/-- Witness for C1: the white pawn at (6,4) on the starting board. -/
theorem validate_moves_preserves_grid_witness :
    (validate_moves initBState ⟨Team.white, PKind.pawn, 6, 4, true, false⟩
      (getMoves ⟨Team.white, PKind.pawn, 6, 4, true, false⟩ initBState.grid)).1.grid
      = initBState.grid :=
  validate_moves_preserves_grid _ _ _ (by decide) (by decide)

theorem innerScan_eq (k : Piece) (ms : Moves) (c : Bool) :
    innerScan (some k) ms c =
      (if ms.any (fun e => decide (e.2 = MVal.norm (some k))) then true
       else if ms.isEmpty then c else false,
       ms.any (fun e => decide (e.2 = MVal.norm (some k)))) := by
  induction ms generalizing c with
  | nil => simp [innerScan]
  | cons e rest ih =>
    by_cases hm : e.2 = MVal.norm (some k)
    · simp [innerScan, hm]
    · simp only [innerScan, hm, decide_eq_true_eq, if_neg, List.any_cons, decide_eq_true_eq,
        List.isEmpty_cons]
      rw [ih false]
      simp [hm]

theorem checkScanAux_eq (g : Grid) (k : Piece) :
    ∀ (l : List Sq) (c : Bool),
      checkScanAux g k.team (some k) l c =
        (attackedIn g k l || (c && !enemyMoveIn g k.team l)) := by
  intro l
  induction l with
  | nil => intro c; simp [checkScanAux, attackedIn, enemyMoveIn]
  | cons sq rest ih =>
    intro c
    unfold checkScanAux attackedIn enemyMoveIn
    simp only [List.any_cons]
    cases hq : gget g sq.1 sq.2 with
    | none =>
      simp only [hq]
      rw [ih c]
      rfl
    | some p =>
      simp only [hq]
      by_cases ht : p.team ≠ k.team
      · rw [if_pos ht]
        rw [innerScan_eq]
        by_cases hatt : (getMoves p g).any (fun e => decide (e.2 = MVal.norm (some k))) = true
        · simp [hatt, ht]
        · simp only [Bool.not_eq_true] at hatt
          by_cases hemp : (getMoves p g).isEmpty
          · have : getMoves p g = [] := List.isEmpty_iff.1 hemp
            simp only [hatt, hemp, Bool.false_eq_true, if_false, if_true]
            rw [ih c]
            simp [attackedIn, enemyMoveIn, ht, hatt, hemp]
          · simp only [hatt, Bool.false_eq_true, if_false, eq_self_iff_true]
            rw [if_neg (by simpa using hemp)]
            rw [ih false]
            simp [attackedIn, enemyMoveIn, ht, hatt, hemp]
      · rw [if_neg ht]
        rw [ih c]
        have ht' : decide (p.team ≠ k.team) = false := by simpa using ht
        simp [attackedIn, enemyMoveIn, ht']

/-- C4 (amended).  `King.check` equals: true iff some enemy piece's raw
move-generation output contains the king as a capture target, except
that when every enemy piece's raw move set is empty the previously
cached `_check` flag is returned unchanged.  In particular the result
agrees with the claim whenever at least one enemy raw move exists, but
it is not determined by the board alone. -/
theorem kingCheck_characterization (g : Grid) (k : Piece) (cached : Bool) :
    kingCheck g k.team (some k) cached =
      (attacked g k || (cached && !enemyMoveIn g k.team allPos)) :=
  checkScanAux_eq g k allPos cached

/-- Board for the counterexample to C4: a lone white king, plus one
black pawn stuck on the last rank (its raw move set is empty). -/
def cexGridC4 : Grid :=
  gset (gset (fun _ _ => none) 0 0 (some ⟨Team.white, PKind.king, 0, 0, true, false⟩))
    7 0 (some ⟨Team.black, PKind.pawn, 7, 0, false, false⟩)

/-- Counterexample to C4 as stated: no enemy raw move output contains
the king, yet `King.check` returns the stale cached flag — true when the
cached flag was true, false when it was false — so the result is not
`true iff attacked` and not independent of the cached flag. -/
theorem kingCheck_counterexample :
    kingCheck cexGridC4 Team.white (some ⟨Team.white, PKind.king, 0, 0, true, false⟩) true
      = true ∧
    attacked cexGridC4 ⟨Team.white, PKind.king, 0, 0, true, false⟩ = false ∧
    kingCheck cexGridC4 Team.white (some ⟨Team.white, PKind.king, 0, 0, true, false⟩) false
      = false := by
  refine ⟨?_, ?_, ?_⟩ <;> decide

theorem Team.other_ne (t : Team) : t.other ≠ t := by
  cases t <;> simp [Team.other]

/-- C6.  `Game.update_turn` flips the turn to the other team and then
clears en-passant flags of exactly the new turn's team: every piece of
the team that just moved (including a pawn flagged by its double step)
is left byte-for-byte unchanged, so its flag persists through the whole
opposing turn; and once the turn returns to a team — whether or not the
en-passant capture was taken — every pawn of that team on the board has
a false flag, so it is capturable en passant only on the opponent's
single reply turn, never later. -/
theorem en_passant_window (s : GState) :
    ((update_turn s).turn = s.turn.other) ∧
    (∀ r c q, gget s.board.grid r c = some q → q.team = s.turn →
      gget (update_turn s).board.grid r c = some q) ∧
    (∀ r c q, 0 ≤ r → r ≤ 7 → 0 ≤ c → c ≤ 7 →
      gget (update_turn s).board.grid r c = some q →
      q.team = (update_turn s).turn → q.kind = PKind.pawn → q.enPassant = false) := by
  refine ⟨rfl, ?_, ?_⟩
  · intro r c q hq ht
    show gget (clear_en_passant s.board.grid s.turn.other) r c = some q
    unfold gget at hq
    simp only [clear_en_passant, gget]
    split
    · rw [hq]
      have hnot : ¬ (q.team = s.turn.other ∧ q.kind = PKind.pawn) := by
        rintro ⟨h1, _⟩
        rw [ht] at h1
        exact (Team.other_ne s.turn) h1.symm
      simp [hnot]
    · exact hq
  · intro r c q h0 h7 hc0 hc7 hq ht hk
    have htt : q.team = s.turn.other := ht
    have hq' : gget (clear_en_passant s.board.grid s.turn.other) r c = some q := hq
    simp only [clear_en_passant, gget] at hq'
    rw [if_pos ⟨h0, h7, hc0, hc7⟩] at hq'
    split at hq'
    · rename_i p hgr
      by_cases hcond : p.team = s.turn.other ∧ p.kind = PKind.pawn
      · rw [if_pos hcond] at hq'
        injection hq' with h
        rw [← h]
      · rw [if_neg hcond] at hq'
        injection hq' with h
        subst h
        exact absurd ⟨htt, hk⟩ hcond
    · cases hq'

/-- Witness grid for C6: a lone white pawn on (4,4) carrying the
en-passant flag. -/
def c6Grid : Grid :=
  gset (fun _ _ => none) 4 4 (some ⟨Team.white, PKind.pawn, 4, 4, false, true⟩)

/-- Witness state for C6: the flagged white pawn's side has just moved. -/
def c6State : GState where
  board :=
    { grid := c6Grid, checkW := false, checkB := false, promoted := none, pieces := initPieces }
  turn := Team.white
  chosen := none
  validMoves := []

/-- Witness for C6: the flagged white pawn survives the turn flip to
black unchanged, and after the turn returns to white every white pawn's
flag is clear. -/
theorem en_passant_window_witness :
    gget (update_turn c6State).board.grid 4 4 =
      some ⟨Team.white, PKind.pawn, 4, 4, false, true⟩ ∧
    (∀ q, gget (update_turn (update_turn c6State)).board.grid 4 4 = some q →
      q.team = (update_turn (update_turn c6State)).turn → q.kind = PKind.pawn →
      q.enPassant = false) := by
  constructor
  · exact (en_passant_window c6State).2.1 4 4 _ (by decide) (by decide)
  · intro q hq ht hk
    exact (en_passant_window (update_turn c6State)).2.2 4 4 q (by decide) (by decide)
      (by decide) (by decide) hq ht hk

/-- C8.  While a promotion is pending, a click in the promotion-choice
region (row 3, columns 2..5) replaces the pawn in place with a newly
constructed piece of the chosen kind (queen, knight, rook or bishop on
columns 2,3,4,5 respectively) with the same square and team, increments
that (team, kind) inventory entry and no other, and clears the pending
state; any click outside the region is rejected with no state change. -/
theorem promotion_resolution (s : GState) (r c : Int) (pp : Piece)
    (hp : s.board.promoted = some pp) :
    ((r = 3 ∧ 2 ≤ c ∧ c ≤ 5) →
      (choose s r c).2 = false ∧
      (choose s r c).1.board.promoted = none ∧
      gget (choose s r c).1.board.grid pp.row pp.col =
        some ⟨pp.team, promoChoice c, pp.row, pp.col, true, false⟩ ∧
      (promoChoice c = PKind.queen ∨ promoChoice c = PKind.knight ∨
        promoChoice c = PKind.rook ∨ promoChoice c = PKind.bishop) ∧
      (choose s r c).1.board.pieces pp.team (promoChoice c) =
        s.board.pieces pp.team (promoChoice c) + 1 ∧
      (∀ t k, ¬(t = pp.team ∧ k = promoChoice c) →
        (choose s r c).1.board.pieces t k = s.board.pieces t k)) ∧
    (¬(r = 3 ∧ 2 ≤ c ∧ c ≤ 5) → choose s r c = (s, true)) := by
  have hch : choose s r c =
      (if r = 3 ∧ 2 ≤ c ∧ c ≤ 5 then ({ s with board := promote_pawn s.board pp c }, false)
       else (s, true)) := by
    unfold choose
    rw [hp]
  constructor
  · intro hreg
    rw [hch, if_pos hreg]
    refine ⟨rfl, rfl, ?_, ?_, ?_, ?_⟩
    · show gget (gset s.board.grid pp.row pp.col
        (some ⟨pp.team, promoChoice c, pp.row, pp.col, true, false⟩)) pp.row pp.col = _
      rw [gget_gset, if_pos ⟨rfl, rfl⟩]
    · unfold promoChoice
      split_ifs <;> simp
    · show (if pp.team = pp.team ∧ promoChoice c = promoChoice c
        then s.board.pieces pp.team (promoChoice c) + 1
        else s.board.pieces pp.team (promoChoice c)) = _
      rw [if_pos ⟨rfl, rfl⟩]
    · intro t k hne
      show (if t = pp.team ∧ k = promoChoice c
        then s.board.pieces t k + 1 else s.board.pieces t k) = _
      rw [if_neg hne]
  · intro hreg
    rw [hch, if_neg hreg]

/-- The pending promoted pawn of the C8 witness. -/
def c8Pawn : Piece := ⟨Team.white, PKind.pawn, 0, 4, false, false⟩

/-- Witness grid for C8: a white pawn has reached (0,4). -/
def c8Grid : Grid := gset (gset initGrid 6 4 none) 0 4 (some c8Pawn)

/-- Witness state for C8: promotion pending for the pawn at (0,4). -/
def c8State : GState where
  board :=
    { grid := c8Grid, checkW := false, checkB := false, promoted := some c8Pawn,
      pieces := initPieces }
  turn := Team.black
  chosen := none
  validMoves := []

/-- Witness for C8: clicking (3,3) yields a white knight at (0,4) and
clears the pending state; clicking (2,6) is rejected unchanged. -/
theorem promotion_resolution_witness :
    gget (choose c8State 3 3).1.board.grid 0 4 =
      some ⟨Team.white, PKind.knight, 0, 4, true, false⟩ ∧
    (choose c8State 3 3).1.board.promoted = none ∧
    choose c8State 2 6 = (c8State, true) := by
  have h1 := (promotion_resolution c8State 3 3 c8Pawn rfl).1 (by norm_num)
  have h2 := (promotion_resolution c8State 2 6 c8Pawn rfl).2 (by norm_num)
  exact ⟨h1.2.2.1, h1.2.1, h2⟩

/-- C9.  Every invalid user selection — clicking an empty or
opponent-owned square with no piece chosen, clicking a non-legal
destination for the chosen piece, or an invalid click while a promotion
is pending — is non-fatal, fires the reusable invalid-choice warning,
and leaves the board grid, the piece inventory, and the turn unchanged. -/
theorem invalid_choice_no_change (s : GState) (r c : Int) :
    ((s.board.promoted = none → s.chosen = none →
      (gget s.board.grid r c = none ∨
        (∃ q, gget s.board.grid r c = some q ∧ ¬ q.team = s.turn)) →
      choose s r c = (s, true))) ∧
    (∀ ch, s.board.promoted = none → s.chosen = some ch →
      dget s.validMoves (r, c) = none →
      (choose s r c).1.board.grid = s.board.grid ∧
      (choose s r c).1.board.pieces = s.board.pieces ∧
      (choose s r c).1.turn = s.turn ∧
      (choose s r c).2 = true) ∧
    (∀ pp, s.board.promoted = some pp → ¬(r = 3 ∧ 2 ≤ c ∧ c ≤ 5) →
      choose s r c = (s, true)) := by
  refine ⟨?_, ?_, ?_⟩
  · intro hp hch hsq
    unfold choose
    rw [hp, hch]
    rcases hsq with hq | ⟨q, hq, ht⟩
    · rw [hq]
    · rw [hq]
      simp [ht]
  · intro ch hp hch hdg
    have hmm : choose s r c = ({ s with chosen := none }, true) := by
      unfold choose make_move
      rw [hp, hch]
      simp only [hdg]
    rw [hmm]
    exact ⟨rfl, rfl, rfl, rfl⟩
  · intro pp hp hreg
    have hch2 : choose s r c =
        (if r = 3 ∧ 2 ≤ c ∧ c ≤ 5 then ({ s with board := promote_pawn s.board pp c }, false)
         else (s, true)) := by
      unfold choose
      rw [hp]
    rw [hch2, if_neg hreg]

/-- Witness for C9: on the initial position, clicking the empty square
(3,3) with nothing chosen warns and changes nothing; with a stale chosen
piece and an empty legal-move dictionary, clicking (5,0) warns and
leaves grid, inventory and turn unchanged; and during a pending
promotion a click at (2,6) outside the choice region warns and changes
nothing. -/
theorem invalid_choice_no_change_witness :
    choose initGState 3 3 = (initGState, true) ∧
    ((choose { initGState with
        chosen := some ⟨Team.white, PKind.pawn, 6, 4, true, false⟩ } 5 0).2 = true) ∧
    choose c8State 2 6 = (c8State, true) := by
  refine ⟨?_, ?_, ?_⟩
  · exact (invalid_choice_no_change initGState 3 3).1 rfl rfl (Or.inl (by decide))
  · exact ((invalid_choice_no_change _ 5 0).2.1 _ rfl rfl (by decide)).2.2.2
  · exact (invalid_choice_no_change c8State 2 6).2.2 c8Pawn rfl (by norm_num)

/-- Number of pawns of a team on the 8x8 grid. -/
def countPawns (g : Grid) (t : Team) : Nat :=
  allPos.countP (fun sq =>
    match gget g sq.1 sq.2 with
    | some q => decide (q.team = t ∧ q.kind = PKind.pawn)
    | none => false)

theorem mem_allPos {r c : Int} :
    (r, c) ∈ allPos ↔ 0 ≤ r ∧ r ≤ 7 ∧ 0 ≤ c ∧ c ≤ 7 := by
  constructor
  · intro h
    obtain ⟨a, ha, hm⟩ := List.mem_flatMap.1 h
    obtain ⟨b, hb, heq⟩ := List.mem_map.1 hm
    rw [List.mem_range] at ha hb
    injection heq with h1 h2
    simp only [Int.ofNat_eq_natCast] at h1 h2
    omega
  · rintro ⟨h0, h7, hc0, hc7⟩
    refine List.mem_flatMap.2 ⟨r.toNat, List.mem_range.2 (by omega), ?_⟩
    refine List.mem_map.2 ⟨c.toNat, List.mem_range.2 (by omega), ?_⟩
    simp only [Prod.mk.injEq, Int.ofNat_eq_natCast]
    omega

theorem allPos_nodup : allPos.Nodup := by decide

theorem countP_congr_sq (f f' : Sq → Bool) :
    ∀ (l : List Sq), (∀ sq ∈ l, f' sq = f sq) → l.countP f' = l.countP f := by
  intro l
  induction l with
  | nil => intro _; rfl
  | cons y t iht =>
    intro hag
    rw [List.countP_cons, List.countP_cons, hag y (List.mem_cons_self _ _),
      iht (fun sq hsq => hag sq (List.mem_cons_of_mem _ hsq))]

theorem countP_update (f f' : Sq → Bool) :
    ∀ (l : List Sq), l.Nodup → ∀ sq₀ ∈ l,
      (∀ sq ∈ l, sq ≠ sq₀ → f' sq = f sq) → f sq₀ = true → f' sq₀ = false →
      l.countP f' + 1 = l.countP f := by
  intro l
  induction l with
  | nil => intro _ sq₀ h; cases h
  | cons x rest ih =>
    intro hnd sq₀ hmem hagree hf hf'
    rcases List.mem_cons.1 hmem with rfl | hmem'
    · have hrest : ∀ sq ∈ rest, f' sq = f sq := by
        intro sq hsq
        exact hagree sq (List.mem_cons_of_mem _ hsq)
          (fun hc => (List.nodup_cons.1 hnd).1 (hc ▸ hsq))
      rw [List.countP_cons, List.countP_cons, hf, hf', countP_congr_sq f f' rest hrest]
      simp
    · have hx : x ≠ sq₀ := fun hc => (List.nodup_cons.1 hnd).1 (hc ▸ hmem')
      rw [List.countP_cons, List.countP_cons, hagree x (List.mem_cons_self _ _) hx]
      have hrec := ih (List.nodup_cons.1 hnd).2 sq₀ hmem'
        (fun sq hsq hne => hagree sq (List.mem_cons_of_mem _ hsq) hne) hf hf'
      cases hfx : f x <;> simp [hfx] <;> omega

theorem promoChoice_ne_pawn (c : Int) : promoChoice c ≠ PKind.pawn := by
  unfold promoChoice
  split_ifs <;> simp

/-- C10.  `Board.promote_pawn` increments exactly one inventory entry,
the promoting team's entry of the chosen kind, and leaves every other
entry — in particular the promoting team's (team, PAWN) entry —
unchanged; the replaced pawn leaves the grid, so whenever the pawn entry
was at least the number of that team's pawns on the board, after the
promotion it strictly exceeds it. -/
theorem promote_pawn_inventory (st : BState) (pawn : Piece) (c : Int)
    (hg : gget st.grid pawn.row pawn.col = some pawn)
    (hk : pawn.kind = PKind.pawn)
    (hb : 0 ≤ pawn.row ∧ pawn.row ≤ 7 ∧ 0 ≤ pawn.col ∧ pawn.col ≤ 7) :
    ((promote_pawn st pawn c).pieces pawn.team (promoChoice c) =
      st.pieces pawn.team (promoChoice c) + 1) ∧
    (∀ t k, ¬(t = pawn.team ∧ k = promoChoice c) →
      (promote_pawn st pawn c).pieces t k = st.pieces t k) ∧
    ((promote_pawn st pawn c).pieces pawn.team PKind.pawn =
      st.pieces pawn.team PKind.pawn) ∧
    (countPawns (promote_pawn st pawn c).grid pawn.team + 1 =
      countPawns st.grid pawn.team) ∧
    (st.pieces pawn.team PKind.pawn ≥ (countPawns st.grid pawn.team : Int) →
      (promote_pawn st pawn c).pieces pawn.team PKind.pawn >
        (countPawns (promote_pawn st pawn c).grid pawn.team : Int)) := by
  have hcount : countPawns (promote_pawn st pawn c).grid pawn.team + 1 =
      countPawns st.grid pawn.team := by
    unfold countPawns
    refine countP_update _ _ allPos allPos_nodup (pawn.row, pawn.col)
      (mem_allPos.2 hb) ?_ ?_ ?_
    · intro sq hsq hne
      show (match gget (gset st.grid pawn.row pawn.col _) sq.1 sq.2 with
        | some q => decide (q.team = pawn.team ∧ q.kind = PKind.pawn)
        | none => false) = _
      rw [gget_gset, if_neg (by
        rintro ⟨h1, h2⟩
        exact hne (Prod.ext h1 h2))]
    · show (match gget st.grid pawn.row pawn.col with
        | some q => decide (q.team = pawn.team ∧ q.kind = PKind.pawn)
        | none => false) = true
      rw [hg]
      simp [hk]
    · show (match gget (gset st.grid pawn.row pawn.col
        (some ⟨pawn.team, promoChoice c, pawn.row, pawn.col, true, false⟩))
        pawn.row pawn.col with
        | some q => decide (q.team = pawn.team ∧ q.kind = PKind.pawn)
        | none => false) = false
      rw [gget_gset, if_pos ⟨rfl, rfl⟩]
      simp [promoChoice_ne_pawn]
  refine ⟨?_, ?_, ?_, hcount, ?_⟩
  · show (if pawn.team = pawn.team ∧ promoChoice c = promoChoice c
      then st.pieces pawn.team (promoChoice c) + 1
      else st.pieces pawn.team (promoChoice c)) = _
    rw [if_pos ⟨rfl, rfl⟩]
  · intro t k hne
    show (if t = pawn.team ∧ k = promoChoice c
      then st.pieces t k + 1 else st.pieces t k) = _
    rw [if_neg hne]
  · show (if pawn.team = pawn.team ∧ PKind.pawn = promoChoice c
      then st.pieces pawn.team PKind.pawn + 1 else st.pieces pawn.team PKind.pawn) = _
    rw [if_neg (by rintro ⟨_, h2⟩; exact promoChoice_ne_pawn c h2.symm)]
  · intro hge
    have hpp : (promote_pawn st pawn c).pieces pawn.team PKind.pawn =
        st.pieces pawn.team PKind.pawn := by
      show (if pawn.team = pawn.team ∧ PKind.pawn = promoChoice c
        then st.pieces pawn.team PKind.pawn + 1 else st.pieces pawn.team PKind.pawn) = _
      rw [if_neg (by rintro ⟨_, h2⟩; exact promoChoice_ne_pawn c h2.symm)]
    rw [hpp]
    omega

/-- Witness pawn for C10, standing on (0,4). -/
def c10Pawn : Piece := ⟨Team.white, PKind.pawn, 0, 4, false, false⟩

/-- Witness board for C10: the white pawn from (6,4) has reached (0,4). -/
def c10State : BState :=
  { grid := gset (gset initGrid 6 4 none) 0 4 (some c10Pawn),
    checkW := false, checkB := false, promoted := some c10Pawn, pieces := initPieces }

/-- Witness for C10: promoting to a queen (column 2) bumps exactly the
white queen entry, keeps the white pawn entry at 8, and leaves the pawn
entry strictly above the 7 white pawns remaining on the board. -/
theorem promote_pawn_inventory_witness :
    (promote_pawn c10State c10Pawn 2).pieces Team.white (promoChoice 2) =
      c10State.pieces Team.white (promoChoice 2) + 1 ∧
    (promote_pawn c10State c10Pawn 2).pieces Team.white PKind.pawn =
      c10State.pieces Team.white PKind.pawn ∧
    (promote_pawn c10State c10Pawn 2).pieces Team.white PKind.pawn >
      (countPawns (promote_pawn c10State c10Pawn 2).grid Team.white : Int) := by
  have h := promote_pawn_inventory c10State c10Pawn 2 (by decide) rfl (by decide)
  exact ⟨h.1, h.2.2.1, h.2.2.2.2 (by decide)⟩

/-- C2.  The (spec-modelled) checkmate predicate holds for a team iff
that team's king is in check — some enemy raw move output captures the
grid-resident king object — and no piece of that team has any
legality-filtered move; `Game.get_winner` reports the opposing team as
winner exactly when the predicate holds for a team (white first, per the
source's dispatch order), and `UNFINISHED` otherwise. -/
theorem get_winner_spec (st : BState) :
    (∀ t, checkmate st t = true ↔
      ((∃ k, findKing st.grid t = some k ∧ attacked st.grid k = true) ∧
        ∀ sq ∈ allPos, ∀ p, gget st.grid sq.1 sq.2 = some p → p.team = t →
          (validate_moves st p (getMoves p st.grid)).2 = [])) ∧
    (get_winner st = GRes.won Team.white ↔ checkmate st Team.black = true) ∧
    (get_winner st = GRes.won Team.black ↔
      (checkmate st Team.white = true ∧ checkmate st Team.black = false)) ∧
    (get_winner st = GRes.unfinished ↔
      (checkmate st Team.black = false ∧ checkmate st Team.white = false)) := by
  refine ⟨?_, ?_, ?_, ?_⟩
  · intro t
    unfold checkmate
    rw [Bool.and_eq_true, List.all_eq_true]
    constructor
    · rintro ⟨hk, hall⟩
      constructor
      · cases hfk : findKing st.grid t with
        | none => rw [hfk] at hk; cases hk
        | some k =>
          rw [hfk] at hk
          exact ⟨k, rfl, hk⟩
      · intro sq hsq p hp hteam
        have h1 := hall sq hsq
        rw [hp] at h1
        have h2 : (if p.team = t
            then decide ((validate_moves st p (getMoves p st.grid)).2 = [])
            else true) = true := h1
        rw [if_pos hteam] at h2
        exact of_decide_eq_true h2
    · rintro ⟨⟨k, hfk, hatt⟩, hall⟩
      refine ⟨by rw [hfk]; exact hatt, ?_⟩
      intro sq hsq
      cases hp : gget st.grid sq.1 sq.2 with
      | none => rfl
      | some p =>
        show (if p.team = t
          then decide ((validate_moves st p (getMoves p st.grid)).2 = [])
          else true) = true
        by_cases hteam : p.team = t
        · rw [if_pos hteam]
          exact decide_eq_true (hall sq hsq p hp hteam)
        · rw [if_neg hteam]
  · unfold get_winner
    by_cases hb : checkmate st Team.black = true
    · simp [hb]
    · simp [hb]
      by_cases hw : checkmate st Team.white = true <;> simp [hw]
  · unfold get_winner
    by_cases hb : checkmate st Team.black = true
    · simp [hb]
    · simp only [Bool.not_eq_true] at hb
      by_cases hw : checkmate st Team.white = true <;> simp [hb, hw]
  · unfold get_winner
    by_cases hb : checkmate st Team.black = true
    · simp [hb]
    · simp only [Bool.not_eq_true] at hb
      by_cases hw : checkmate st Team.white = true <;> simp [hb, hw]

theorem castleStepQ_mem {g : Grid} {k : Piece} {sq : Sq} {cs : Moves} {e : Sq × MVal}
    (he : e ∈ castleStepQ g k sq cs) :
    e ∈ cs ∨ (sq.2 = 1 ∧ e.1 = (k.row, 2)) := by
  unfold castleStepQ at he
  split at he
  · rename_i h1
    split at he
    · split at he
      · rcases mem_dput he with h2 | h2
        · right
          refine ⟨h1, ?_⟩
          rw [h2]
        · exact Or.inl h2
      · exact Or.inl he
    · exact Or.inl he
  · exact Or.inl he

theorem castleStepK_mem {g : Grid} {k : Piece} {sq : Sq} {cs : Moves} {e : Sq × MVal}
    (he : e ∈ castleStepK g k sq cs) :
    e ∈ cs ∨ (sq.2 = 6 ∧ e.1 = (k.row, 6)) := by
  unfold castleStepK at he
  split at he
  · rename_i h1
    split at he
    · split at he
      · rcases mem_dput he with h2 | h2
        · right
          refine ⟨h1, ?_⟩
          rw [h2]
          dsimp only
          rw [h1]
        · exact Or.inl h2
      · exact Or.inl he
    · exact Or.inl he
  · exact Or.inl he

theorem castleFold_mem {g : Grid} {k : Piece} :
    ∀ (l : List Sq) (cs : Moves) (e : Sq × MVal), e ∈ castleFold g k l cs →
      e ∈ cs ∨ (e.1 = (k.row, 2) ∧ ∃ sq ∈ l, sq.2 = 1) ∨
      (e.1 = (k.row, 6) ∧ ∃ sq ∈ l, sq.2 = 6) := by
  intro l
  induction l with
  | nil => intro cs e he; exact Or.inl he
  | cons sq rest ih =>
    intro cs e he
    have he' : e ∈ castleFold g k rest (castleStepK g k sq (castleStepQ g k sq cs)) := he
    rcases ih _ e he' with h1 | h1 | h1
    · rcases castleStepK_mem h1 with h2 | h2
      · rcases castleStepQ_mem h2 with h3 | h3
        · exact Or.inl h3
        · exact Or.inr (Or.inl ⟨h3.2, sq, List.mem_cons_self _ _, h3.1⟩)
      · exact Or.inr (Or.inr ⟨h2.2, sq, List.mem_cons_self _ _, h2.1⟩)
    · obtain ⟨hkey, s, hs, hcol⟩ := h1
      exact Or.inr (Or.inl ⟨hkey, s, List.mem_cons_of_mem _ hs, hcol⟩)
    · obtain ⟨hkey, s, hs, hcol⟩ := h1
      exact Or.inr (Or.inr ⟨hkey, s, List.mem_cons_of_mem _ hs, hcol⟩)

/-- C7 (amended).  For every piece of every kind and every board state,
`get_moves` never returns an off-board destination, and never returns a
destination occupied by a piece of the mover's own team EXCEPT possibly
the queenside castle descriptor targeting (row, 2): `King.castle`
records that destination without probing its occupancy when the walk
reaches column 1 directly, so only that one key can be
friendly-occupied (in the source's reachable states this happens only
for an unmoved king standing on column 2, whose own square is the
target). -/
theorem getMoves_spec (g : Grid) (p : Piece) :
    ∀ e ∈ getMoves p g,
      (0 ≤ e.1.1 ∧ e.1.1 ≤ 7 ∧ 0 ≤ e.1.2 ∧ e.1.2 ≤ 7) ∧
      (∀ q, gget g e.1.1 e.1.2 = some q → q.team = p.team → e.1 = (p.row, 2)) := by
  obtain ⟨team, kind, prow, pcol, ft, ep⟩ := p
  dsimp only
  have hmv : ∀ {fuel : Nat} {r c v h : Int} {rec first : Bool} {e : Sq × MVal},
      e ∈ move g fuel r c team v h rec first →
      (0 ≤ e.1.1 ∧ e.1.1 ≤ 7 ∧ 0 ≤ e.1.2 ∧ e.1.2 ≤ 7) ∧
      (∀ q, gget g e.1.1 e.1.2 = some q → q.team = team → e.1 = (prow, 2)) := by
    intro fuel r c v h rec first e hm
    have h3 := move_mem fuel r c rec first e hm
    exact ⟨h3.1, fun q hq ht => absurd ht (h3.2.2 q hq)⟩
  intro e he
  cases kind with
  | rook =>
    simp only [getMoves, rookGetMoves] at he
    repeat' rcases mem_dupdate he with he | he
    all_goals exact hmv he
  | knight =>
    simp only [getMoves, knightGetMoves] at he
    repeat' rcases mem_dupdate he with he | he
    all_goals exact hmv he
  | bishop =>
    simp only [getMoves, bishopGetMoves] at he
    repeat' rcases mem_dupdate he with he | he
    all_goals exact hmv he
  | queen =>
    simp only [getMoves, queenGetMoves] at he
    repeat' rcases mem_dupdate he with he | he
    all_goals exact hmv he
  | pawn =>
    simp only [getMoves, pawnGetMoves] at he
    have h0 := (mem_ddelAll.1 he).1
    rcases mem_dupdate h0 with h1 | h1
    · exact hmv h1
    · obtain ⟨a, ha, rfl⟩ := List.mem_map.1 h1
      obtain ⟨e0, he0, rfl⟩ := List.mem_map.1 ha
      have hcap : e0 ∈ dupdate
          (move g slideFuel (prow + pawnDir team) (pcol - 1) team 0 0 false false)
          (move g slideFuel (prow + pawnDir team) (pcol + 1) team 0 0 false false) := he0
      have hfacts : (0 ≤ e0.1.1 ∧ e0.1.1 ≤ 7 ∧ 0 ≤ e0.1.2 ∧ e0.1.2 ≤ 7) ∧
          e0.2 = MVal.norm (gget g e0.1.1 e0.1.2) ∧
          ∀ q, gget g e0.1.1 e0.1.2 = some q → ¬ q.team = team := by
        rcases mem_dupdate hcap with hc | hc
        · exact move_mem _ _ _ _ _ _ hc
        · exact move_mem _ _ _ _ _ _ hc
      split
      · rename_i hnone
        split
        · rename_i epn hbes
          split
          · dsimp only
            refine ⟨hfacts.1, ?_⟩
            intro q hq _
            rw [hnone] at hfacts
            have hnoneg : gget g e0.1.1 e0.1.2 = none := by
              have h4 := hfacts.2.1
              injection h4 with h5
              exact h5.symm
            rw [hnoneg] at hq
            cases hq
          · dsimp only
            exact ⟨hfacts.1, fun q hq ht => absurd ht (hfacts.2.2 q hq)⟩
        · dsimp only
          exact ⟨hfacts.1, fun q hq ht => absurd ht (hfacts.2.2 q hq)⟩
      · dsimp only
        exact ⟨hfacts.1, fun q hq ht => absurd ht (hfacts.2.2 q hq)⟩
  | king =>
    simp only [getMoves, kingGetMoves] at he
    rcases mem_dupdate he with he | he
    · repeat' rcases mem_dupdate he with he | he
      all_goals exact hmv he
    · simp only [castle] at he
      rcases castleFold_mem _ _ _ he with h1 | h1 | h1
      · cases h1
      · obtain ⟨hkey, sq, hsq, hcol⟩ := h1
        by_cases hft : ft = true
        · rw [if_pos hft] at hsq
          obtain ⟨entry, hentry, hkeyeq⟩ := mem_keys.1 hsq
          have hrowcases : entry.1.1 = prow ∧
              (0 ≤ entry.1.1 ∧ entry.1.1 ≤ 7 ∧ 0 ≤ entry.1.2 ∧ entry.1.2 ≤ 7) := by
            rcases mem_dupdate hentry with hc | hc
            · exact ⟨move_row0 _ _ _ _ _ _ hc, (move_mem _ _ _ _ _ _ hc).1⟩
            · exact ⟨move_row0 _ _ _ _ _ _ hc, (move_mem _ _ _ _ _ _ hc).1⟩
          refine ⟨?_, fun q hq ht => hkey⟩
          rw [hkey]
          dsimp only
          obtain ⟨hr, hb⟩ := hrowcases
          refine ⟨by omega, by omega, by omega, by omega⟩
        · rw [if_neg hft] at hsq
          simp [keys] at hsq
      · obtain ⟨hkey, sq, hsq, hcol⟩ := h1
        by_cases hft : ft = true
        · rw [if_pos hft] at hsq
          obtain ⟨entry, hentry, hkeyeq⟩ := mem_keys.1 hsq
          have hfacts : entry.1.1 = prow ∧
              ((0 ≤ entry.1.1 ∧ entry.1.1 ≤ 7 ∧ 0 ≤ entry.1.2 ∧ entry.1.2 ≤ 7) ∧
               e.2 = e.2 ∧ ∀ q, gget g entry.1.1 entry.1.2 = some q → ¬ q.team = team) := by
            rcases mem_dupdate hentry with hc | hc
            · exact ⟨move_row0 _ _ _ _ _ _ hc,
                ⟨(move_mem _ _ _ _ _ _ hc).1, rfl, (move_mem _ _ _ _ _ _ hc).2.2⟩⟩
            · exact ⟨move_row0 _ _ _ _ _ _ hc,
                ⟨(move_mem _ _ _ _ _ _ hc).1, rfl, (move_mem _ _ _ _ _ _ hc).2.2⟩⟩
          obtain ⟨hr, hb, _, hnf⟩ := hfacts
          have hsq6 : sq = (prow, 6) := by
            have h5 : sq.1 = prow := by rw [← hkeyeq]; exact hr
            exact Prod.ext h5 hcol
          have hentrykey : entry.1 = (prow, 6) := by rw [hkeyeq, hsq6]
          constructor
          · rw [hkey]
            dsimp only
            rw [hentrykey] at hb
            dsimp only at hb
            exact ⟨by omega, by omega, by omega, by omega⟩
          · intro q hq ht
            rw [hkey] at hq
            rw [hentrykey] at hnf
            dsimp only at hnf hq
            exact absurd ht (hnf q hq)
        · rw [if_neg hft] at hsq
          simp [keys] at hsq

/-- Witness for C7: the white pawn's single step on the initial board is
in bounds and cannot be a friendly-occupied destination. -/
theorem getMoves_spec_witness :
    (0 ≤ (5 : Int) ∧ (5 : Int) ≤ 7 ∧ 0 ≤ (4 : Int) ∧ (4 : Int) ≤ 7) ∧
    (∀ q, gget initGrid 5 4 = some q → q.team = Team.white →
      ((5 : Int), (4 : Int)) = ((6 : Int), 2)) :=
  getMoves_spec initGrid ⟨Team.white, PKind.pawn, 6, 4, true, false⟩
    ((5, 4), MVal.norm none) (by decide)

/-- Board for the counterexample to C7: an unmoved white king on (4,2)
with a white rook in the (4,0) corner and (4,1) empty. -/
def cexGridC7 : Grid :=
  gset (gset (fun _ _ => none) 4 2 (some ⟨Team.white, PKind.king, 4, 2, true, false⟩))
    4 0 (some ⟨Team.white, PKind.rook, 4, 0, true, false⟩)

/-- Counterexample to C7 as stated: the king's raw move set contains the
queenside castle destination (4,2), which is occupied by the mover's own
team (the king itself). -/
theorem getMoves_friendly_counterexample :
    ((4, 2), MVal.castle ⟨Team.white, PKind.rook, 4, 0, true, false⟩ (4, 3)) ∈
      getMoves ⟨Team.white, PKind.king, 4, 2, true, false⟩ cexGridC7 ∧
    gget cexGridC7 4 2 = some ⟨Team.white, PKind.king, 4, 2, true, false⟩ := by
  refine ⟨?_, ?_⟩ <;> decide

/-- A pawn's standard forward walk contains only the single-step square
and — only on the pawn's first move with the single-step square empty —
the double-step square, each recorded with the probed occupant. -/
theorem pawn_stand_mem {g : Grid} {t : Team} {d : Int} :
    ∀ {fuel : Nat} {r c : Int} {first : Bool} {e : Sq × MVal},
      e ∈ move g fuel r c t d 0 false first →
      (e.1 = (r, c) ∧ e.2 = MVal.norm (gget g r c)) ∨
      (first = true ∧ e.1 = (r + d, c) ∧ gget g r c = none ∧
        e.2 = MVal.norm (gget g (r + d) c)) := by
  intro fuel r c first e he
  cases fuel with
  | zero => simp [move] at he
  | succ f =>
    unfold move at he
    split at he
    · simp at he
    · split at he
      · rename_i hq
        split at he
        · rename_i hrf
          rcases mem_dupdate he with h1 | h1
          · rw [List.mem_singleton] at h1
            subst h1
            exact Or.inl ⟨rfl, by rw [hq]⟩
          · right
            have hf : first = true := by
              rcases hrf with h | h
              · simp at h
              · exact h
            have hk := move_nonrec h1
            have hv := (move_mem _ _ _ _ _ _ h1).2.1
            have hc0 : c + 0 = c := by ring
            refine ⟨hf, ?_, hq, ?_⟩
            · rw [hk, hc0]
            · rw [hv, hk]
              dsimp only
              rw [hc0]
        · rw [List.mem_singleton] at he
          subst he
          exact Or.inl ⟨rfl, by rw [hq]⟩
      · split at he
        · rename_i pos hq _
          rw [List.mem_singleton] at he
          subst he
          exact Or.inl ⟨rfl, by rw [hq]⟩
        · simp at he

/-- C5 (amended).  For every board and every pawn, `Pawn.get_moves`
yields a forward step only onto an empty square; a double forward step
only on the pawn's first move (`_first_turn` set) with both intermediate
and destination squares empty; and a diagonal move only when the
destination holds an enemy piece, or the destination is empty and an
en-passant-flagged pawn — of either team: the source does not check the
beside pawn's team — sits immediately beside the mover on the same
rank, in which case the captured pawn's square differs from the
destination square. -/
theorem pawn_get_moves_spec (g : Grid) (p : Piece) (hpk : p.kind = PKind.pawn) :
    ∀ e ∈ getMoves p g,
      (e.1 = (p.row + pawnDir p.team, p.col) ∨
       e.1 = (p.row + 2 * pawnDir p.team, p.col) ∨
       e.1 = (p.row + pawnDir p.team, p.col - 1) ∨
       e.1 = (p.row + pawnDir p.team, p.col + 1)) ∧
      (e.1 = (p.row + pawnDir p.team, p.col) →
        gget g (p.row + pawnDir p.team) p.col = none ∧ e.2 = MVal.norm none) ∧
      (e.1 = (p.row + 2 * pawnDir p.team, p.col) →
        p.firstTurn = true ∧ gget g (p.row + pawnDir p.team) p.col = none ∧
        gget g (p.row + 2 * pawnDir p.team) p.col = none ∧ e.2 = MVal.norm none) ∧
      ((e.1 = (p.row + pawnDir p.team, p.col - 1) ∨
        e.1 = (p.row + pawnDir p.team, p.col + 1)) →
        (∃ q, gget g e.1.1 e.1.2 = some q ∧ q.team ≠ p.team ∧ e.2 = MVal.norm (some q)) ∨
        (gget g e.1.1 e.1.2 = none ∧ ∃ epn, gget g p.row e.1.2 = some epn ∧
          epn.kind = PKind.pawn ∧ epn.enPassant = true ∧ e.2 = MVal.norm (some epn) ∧
          (p.row, e.1.2) ≠ e.1)) := by
  obtain ⟨team, kind, prow, pcol, ft, ep⟩ := p
  dsimp only at hpk ⊢
  subst hpk
  have hd : pawnDir team ≠ 0 := by cases team <;> simp [pawnDir]
  intro e he
  simp only [getMoves, pawnGetMoves] at he
  obtain ⟨hmem, hdel⟩ := mem_ddelAll.1 he
  rcases mem_dupdate hmem with hstand | hcap2
  · -- from the standard forward walk
    rcases pawn_stand_mem hstand with ⟨hk1, hv1⟩ | ⟨hft, hk2, hmid, hv2⟩
    · -- single step
      have hempty : gget g (prow + pawnDir team) pcol = none ∧ e.2 = MVal.norm none := by
        cases hf1 : gget g (prow + pawnDir team) pcol with
        | none => exact ⟨rfl, by rw [hv1, hf1]⟩
        | some q =>
          exfalso
          refine hdel e.1 (List.mem_append.2 (Or.inl (List.mem_map.2
            ⟨e, List.mem_filter.2 ⟨hstand, ?_⟩, rfl⟩))) rfl
          rw [hv1, hf1]
          simp
      refine ⟨Or.inl hk1, fun _ => hempty, ?_, ?_⟩
      · intro hk'
        rw [hk1] at hk'
        injection hk' with ha hb
        exfalso
        omega
      · intro hk'
        rw [hk1] at hk'
        rcases hk' with hk' | hk' <;> (injection hk' with ha hb; exfalso; omega)
    · -- double step
      have h2d : prow + pawnDir team + pawnDir team = prow + 2 * pawnDir team := by ring
      have hempty : gget g (prow + 2 * pawnDir team) pcol = none ∧ e.2 = MVal.norm none := by
        cases hf2 : gget g (prow + 2 * pawnDir team) pcol with
        | none => exact ⟨rfl, by rw [hv2, h2d, hf2]⟩
        | some q =>
          exfalso
          refine hdel e.1 (List.mem_append.2 (Or.inl (List.mem_map.2
            ⟨e, List.mem_filter.2 ⟨hstand, ?_⟩, rfl⟩))) rfl
          rw [hv2, h2d, hf2]
          simp
      have hk2' : e.1 = (prow + 2 * pawnDir team, pcol) := by rw [hk2, h2d]
      refine ⟨Or.inr (Or.inl hk2'), ?_, fun _ => ⟨hft, hmid, hempty⟩, ?_⟩
      · intro hk'
        rw [hk2'] at hk'
        injection hk' with ha hb
        exfalso
        omega
      · intro hk'
        rw [hk2'] at hk'
        rcases hk' with hk' | hk' <;> (injection hk' with ha hb; exfalso; omega)
  · -- from the diagonal capture dictionary
    obtain ⟨a, ha, rfl⟩ := List.mem_map.1 hcap2
    obtain ⟨e0, he0, rfl⟩ := List.mem_map.1 ha
    have hkey : e0.1 = (prow + pawnDir team, pcol - 1) ∨
        e0.1 = (prow + pawnDir team, pcol + 1) := by
      rcases mem_dupdate he0 with hc | hc
      · exact Or.inl (move_nonrec hc)
      · exact Or.inr (move_nonrec hc)
    have hfacts : e0.2 = MVal.norm (gget g e0.1.1 e0.1.2) ∧
        ∀ q, gget g e0.1.1 e0.1.2 = some q → ¬ q.team = team := by
      rcases mem_dupdate he0 with hc | hc
      · exact ⟨(move_mem _ _ _ _ _ _ hc).2.1, (move_mem _ _ _ _ _ _ hc).2.2⟩
      · exact ⟨(move_mem _ _ _ _ _ _ hc).2.1, (move_mem _ _ _ _ _ _ hc).2.2⟩
    have hkeyne1 : ∀ x : Sq, x = (prow + pawnDir team, pcol - 1) ∨
        x = (prow + pawnDir team, pcol + 1) →
        ¬ (x = (prow + pawnDir team, pcol) ∨ x = (prow + 2 * pawnDir team, pcol)) := by
      rintro x (rfl | rfl) (hx | hx) <;> (injection hx with ha hb; omega)
    split
    · rename_i hnone
      split
      · rename_i epn hbes
        split
        · rename_i helig
          dsimp only
          have hgnone : gget g e0.1.1 e0.1.2 = none := by
            have h4 := hfacts.1
            rw [hnone] at h4
            injection h4 with h5
            exact h5.symm
          refine ⟨?_, ?_, ?_, ?_⟩
          · rcases hkey with hk | hk
            · exact Or.inr (Or.inr (Or.inl hk))
            · exact Or.inr (Or.inr (Or.inr hk))
          · intro hk'
            exact absurd (Or.inl hk') (hkeyne1 e0.1 hkey)
          · intro hk'
            exact absurd (Or.inr hk') (hkeyne1 e0.1 hkey)
          · intro _
            right
            refine ⟨hgnone, epn, hbes, helig.1, ?_, rfl, ?_⟩
            · have := helig.2
              exact this
            · rcases hkey with hk | hk <;>
                (rw [hk]; intro hcon; injection hcon with ha hb; omega)
        · rename_i helig
          exfalso
          refine hdel e0.1 (List.mem_append.2 (Or.inr (List.mem_filterMap.2
            ⟨((e0, some e0.1) : (Sq × MVal) × Option Sq), ?_, rfl⟩))) ?_
          · refine List.mem_map.2 ⟨e0, he0, ?_⟩
            rw [if_pos hnone, hbes]
            simp [helig]
          · rw [if_pos hnone, hbes]
            simp [helig]
      · rename_i hbes
        exfalso
        refine hdel e0.1 (List.mem_append.2 (Or.inr (List.mem_filterMap.2
          ⟨((e0, some e0.1) : (Sq × MVal) × Option Sq), ?_, rfl⟩))) ?_
        · refine List.mem_map.2 ⟨e0, he0, ?_⟩
          rw [if_pos hnone, hbes]
        · rw [if_pos hnone, hbes]
    · rename_i hnone
      dsimp only
      have hsome : ∃ q, gget g e0.1.1 e0.1.2 = some q ∧ ¬ q.team = team ∧
          e0.2 = MVal.norm (some q) := by
        cases hg0 : gget g e0.1.1 e0.1.2 with
        | none =>
          exfalso
          apply hnone
          rw [hfacts.1, hg0]
        | some q =>
          exact ⟨q, rfl, hfacts.2 q hg0, by rw [hfacts.1, hg0]⟩
      refine ⟨?_, ?_, ?_, fun _ => Or.inl hsome⟩
      · rcases hkey with hk | hk
        · exact Or.inr (Or.inr (Or.inl hk))
        · exact Or.inr (Or.inr (Or.inr hk))
      · intro hk'
        exact absurd (Or.inl hk') (hkeyne1 e0.1 hkey)
      · intro hk'
        exact absurd (Or.inr hk') (hkeyne1 e0.1 hkey)

/-- Witness for C5: the white pawn's double step from (6,4) on the
initial board is offered exactly because it is the pawn's first move and
both (5,4) and (4,4) are empty. -/
theorem pawn_get_moves_spec_witness :
    (⟨Team.white, PKind.pawn, 6, 4, true, false⟩ : Piece).firstTurn = true ∧
    gget initGrid 5 4 = none ∧ gget initGrid 4 4 = none := by
  have h := pawn_get_moves_spec initGrid ⟨Team.white, PKind.pawn, 6, 4, true, false⟩ rfl
    ((4, 4), MVal.norm none) (by decide)
  have h2 := h.2.2.1 (by decide)
  exact ⟨h2.1, h2.2.1, h2.2.2.1⟩

/-- Board for the counterexample to C5: the mover, a white pawn on
(3,3), stands beside a white — same-team — pawn on (3,4) whose
en-passant flag is set, with (2,4) empty. -/
def cexGridC5 : Grid :=
  gset (gset (fun _ _ => none) 3 3 (some ⟨Team.white, PKind.pawn, 3, 3, false, false⟩))
    3 4 (some ⟨Team.white, PKind.pawn, 3, 4, false, true⟩)

/-- Counterexample to C5 as stated: the diagonal move to the empty
square (2,4) is yielded with the FRIENDLY flagged pawn as its captured
piece — the source never checks the beside pawn's team, so the claim's
"enemy pawn" requirement is violated. -/
theorem pawn_get_moves_counterexample :
    ((2, 4), MVal.norm (some ⟨Team.white, PKind.pawn, 3, 4, false, true⟩)) ∈
      getMoves ⟨Team.white, PKind.pawn, 3, 3, false, false⟩ cexGridC5 ∧
    gget cexGridC5 2 4 = none ∧
    (⟨Team.white, PKind.pawn, 3, 4, false, true⟩ : Piece).team =
      (⟨Team.white, PKind.pawn, 3, 3, false, false⟩ : Piece).team := by
  refine ⟨?_, ?_, ?_⟩ <;> decide

theorem move_unfold_succ (g : Grid) (t : Team) (v h : Int) (f : Nat) (r c : Int)
    (rec first : Bool) :
    move g (f + 1) r c t v h rec first =
      if r < 0 ∨ r > 7 ∨ c < 0 ∨ c > 7 then []
      else
        match gget g r c with
        | none =>
          if rec ∨ first then
            dupdate [((r, c), MVal.norm none)] (move g f (r + v) (c + h) t v h rec false)
          else [((r, c), MVal.norm none)]
        | some pos => if pos.team ≠ t then [((r, c), MVal.norm (some pos))] else [] := rfl

theorem key_notin_singleton {r c r' c' : Int} {val : MVal} (h : ¬(r = r' ∧ c = c')) :
    ((r, c) ∈ keys ([((r', c'), val)] : Moves)) ↔ False := by
  simp only [keys, List.map_cons, List.map_nil, List.mem_singleton, Prod.mk.injEq, iff_false]
  exact h

/-- The westward castle walk of a king on column 4 reaches column 1 iff
columns 3 and 2 are empty and column 1 is empty or enemy-occupied. -/
theorem slide_reach_west {g : Grid} {t : Team} {r : Int} (hr0 : 0 ≤ r) (hr7 : r ≤ 7) :
    ((r, 1) ∈ keys (move g slideFuel r 3 t 0 (-1) true false)) ↔
      (gget g r 3 = none ∧ gget g r 2 = none ∧
       (gget g r 1 = none ∨ ∃ q, gget g r 1 = some q ∧ ¬ q.team = t)) := by
  rw [show (slideFuel : Nat) = 15 + 1 from rfl, move_unfold_succ,
    if_neg (by omega : ¬((r : Int) < 0 ∨ r > 7 ∨ (3 : Int) < 0 ∨ (3 : Int) > 7))]
  cases h3 : gget g r 3 with
  | some pos =>
    constructor
    · intro hmem
      have hmem2 : (r, 1) ∈ keys
          (if ¬ pos.team = t then [((r, 3), MVal.norm (some pos))] else ([] : Moves)) := hmem
      split at hmem2
      · rw [key_notin_singleton (by omega)] at hmem2
        exact hmem2.elim
      · simp [keys] at hmem2
    · rintro ⟨hcon, _⟩
      cases hcon
  | none =>
    rw [if_pos (Or.inl rfl),
      show (3 : Int) + -1 = 2 from by norm_num, show r + (0 : Int) = r from by ring,
      keys_dupdate, key_notin_singleton (by norm_num : ¬((r : Int) = r ∧ (1 : Int) = 3)),
      false_or,
      show (15 : Nat) = 14 + 1 from rfl, move_unfold_succ,
      if_neg (by omega : ¬((r : Int) < 0 ∨ r > 7 ∨ (2 : Int) < 0 ∨ (2 : Int) > 7))]
    cases h2 : gget g r 2 with
    | some pos =>
      constructor
      · intro hmem
        have hmem2 : (r, 1) ∈ keys
            (if ¬ pos.team = t then [((r, 2), MVal.norm (some pos))] else ([] : Moves)) := hmem
        split at hmem2
        · rw [key_notin_singleton (by omega)] at hmem2
          exact hmem2.elim
        · simp [keys] at hmem2
      · rintro ⟨_, hcon, _⟩
        cases hcon
    | none =>
      rw [if_pos (Or.inl rfl),
        show (2 : Int) + -1 = 1 from by norm_num, show r + (0 : Int) = r from by ring,
        keys_dupdate, key_notin_singleton (by norm_num : ¬((r : Int) = r ∧ (1 : Int) = 2)),
        false_or,
        show (14 : Nat) = 13 + 1 from rfl, move_unfold_succ,
        if_neg (by omega : ¬((r : Int) < 0 ∨ r > 7 ∨ (1 : Int) < 0 ∨ (1 : Int) > 7))]
      cases h1 : gget g r 1 with
      | some pos =>
        show ((r, 1) ∈ keys
          (if ¬ pos.team = t then [((r, 1), MVal.norm (some pos))] else ([] : Moves))) ↔ _
        by_cases ht : ¬ pos.team = t
        · rw [if_pos ht]
          constructor
          · intro _
            exact ⟨rfl, rfl, Or.inr ⟨pos, rfl, ht⟩⟩
          · intro _
            simp [keys]
        · rw [if_neg ht]
          simp only [keys, List.map_nil, List.not_mem_nil, false_iff, not_and, not_or]
          intro _ _
          constructor
          · intro hcon
            cases hcon
          · rintro ⟨q, hq, hqt⟩
            injection hq with hq
            exact ht (fun hteq => (hq ▸ hqt) hteq)
      | none =>
        rw [if_pos (Or.inl rfl), keys_dupdate]
        constructor
        · intro _
          exact ⟨rfl, rfl, Or.inl rfl⟩
        · intro _
          left
          simp [keys]

/-- The eastward castle walk of a king on column 4 reaches column 6 iff
column 5 is empty and column 6 is empty or enemy-occupied. -/
theorem slide_reach_east {g : Grid} {t : Team} {r : Int} (hr0 : 0 ≤ r) (hr7 : r ≤ 7) :
    ((r, 6) ∈ keys (move g slideFuel r 5 t 0 1 true false)) ↔
      (gget g r 5 = none ∧
       (gget g r 6 = none ∨ ∃ q, gget g r 6 = some q ∧ ¬ q.team = t)) := by
  rw [show (slideFuel : Nat) = 15 + 1 from rfl, move_unfold_succ,
    if_neg (by omega : ¬((r : Int) < 0 ∨ r > 7 ∨ (5 : Int) < 0 ∨ (5 : Int) > 7))]
  cases h5 : gget g r 5 with
  | some pos =>
    constructor
    · intro hmem
      have hmem2 : (r, 6) ∈ keys
          (if ¬ pos.team = t then [((r, 5), MVal.norm (some pos))] else ([] : Moves)) := hmem
      split at hmem2
      · rw [key_notin_singleton (by omega)] at hmem2
        exact hmem2.elim
      · simp [keys] at hmem2
    · rintro ⟨hcon, _⟩
      cases hcon
  | none =>
    rw [if_pos (Or.inl rfl),
      show (5 : Int) + 1 = 6 from by norm_num, show r + (0 : Int) = r from by ring,
      keys_dupdate, key_notin_singleton (by norm_num : ¬((r : Int) = r ∧ (6 : Int) = 5)),
      false_or,
      show (15 : Nat) = 14 + 1 from rfl, move_unfold_succ,
      if_neg (by omega : ¬((r : Int) < 0 ∨ r > 7 ∨ (6 : Int) < 0 ∨ (6 : Int) > 7))]
    cases h6 : gget g r 6 with
    | some pos =>
      show ((r, 6) ∈ keys
        (if ¬ pos.team = t then [((r, 6), MVal.norm (some pos))] else ([] : Moves))) ↔ _
      by_cases ht : ¬ pos.team = t
      · rw [if_pos ht]
        constructor
        · intro _
          exact ⟨rfl, Or.inr ⟨pos, rfl, ht⟩⟩
        · intro _
          simp [keys]
      · rw [if_neg ht]
        simp only [keys, List.map_nil, List.not_mem_nil, false_iff, not_and, not_or]
        intro _
        constructor
        · intro hcon
          cases hcon
        · rintro ⟨q, hq, hqt⟩
          injection hq with hq
          exact ht (fun hteq => (hq ▸ hqt) hteq)
    | none =>
      rw [if_pos (Or.inl rfl), keys_dupdate]
      constructor
      · intro _
        exact ⟨rfl, Or.inl rfl⟩
      · intro _
        left
        simp [keys]

theorem sq26_ne {rr : Int} : ((rr, 2) : Sq) ≠ (rr, 6) := by
  intro h
  injection h with _ h2
  exact absurd h2 (by norm_num)

theorem stepQ_dget_q {g : Grid} {k : Piece} {sq : Sq} {cs : Moves} :
    dget (castleStepQ g k sq cs) (k.row, 2) =
      if sq.2 = 1 ∧ checkRook k (gget g k.row 0) = true then
        (gget g k.row 0).map (fun rk => MVal.castle rk (k.row, 3))
      else dget cs (k.row, 2) := by
  unfold castleStepQ
  by_cases h1 : sq.2 = 1
  · rw [if_pos h1]
    cases hr : gget g k.row 0 with
    | none =>
      rw [if_neg (by rintro ⟨_, hok⟩; simp [checkRook] at hok)]
    | some rook =>
      show dget (if checkRook k (some rook) = true
        then dput cs (k.row, 2) (MVal.castle rook (k.row, 3)) else cs) (k.row, 2) = _
      by_cases hok : checkRook k (some rook) = true
      · rw [if_pos hok, if_pos ⟨h1, hok⟩, dget_dput_same]
        rfl
      · rw [if_neg hok, if_neg (by rintro ⟨_, hok2⟩; exact hok hok2)]
  · rw [if_neg h1, if_neg (by rintro ⟨hc, _⟩; exact h1 hc)]

theorem stepQ_dget_k {g : Grid} {k : Piece} {sq : Sq} {cs : Moves} :
    dget (castleStepQ g k sq cs) (k.row, 6) = dget cs (k.row, 6) := by
  unfold castleStepQ
  by_cases h1 : sq.2 = 1
  · rw [if_pos h1]
    cases hr : gget g k.row 0 with
    | none => rfl
    | some rook =>
      show dget (if checkRook k (some rook) = true
        then dput cs (k.row, 2) (MVal.castle rook (k.row, 3)) else cs) (k.row, 6) = _
      by_cases hok : checkRook k (some rook) = true
      · rw [if_pos hok, dget_dput_ne (fun h => sq26_ne h.symm)]
      · rw [if_neg hok]
  · rw [if_neg h1]

theorem stepK_dget_k {g : Grid} {k : Piece} {sq : Sq} {cs : Moves} :
    dget (castleStepK g k sq cs) (k.row, 6) =
      if sq.2 = 6 ∧ checkRook k (gget g k.row 7) = true then
        (gget g k.row 7).map (fun rk => MVal.castle rk (k.row, 5))
      else dget cs (k.row, 6) := by
  unfold castleStepK
  by_cases h6 : sq.2 = 6
  · rw [if_pos h6]
    cases hr : gget g k.row 7 with
    | none =>
      rw [if_neg (by rintro ⟨_, hok⟩; simp [checkRook] at hok)]
    | some rook =>
      show dget (if checkRook k (some rook) = true
        then dput cs (k.row, sq.2) (MVal.castle rook (k.row, 5)) else cs) (k.row, 6) = _
      by_cases hok : checkRook k (some rook) = true
      · rw [if_pos hok, if_pos ⟨h6, hok⟩, h6, dget_dput_same]
        rfl
      · rw [if_neg hok, if_neg (by rintro ⟨_, hok2⟩; exact hok hok2)]
  · rw [if_neg h6, if_neg (by rintro ⟨hc, _⟩; exact h6 hc)]

theorem stepK_dget_q {g : Grid} {k : Piece} {sq : Sq} {cs : Moves} :
    dget (castleStepK g k sq cs) (k.row, 2) = dget cs (k.row, 2) := by
  unfold castleStepK
  by_cases h6 : sq.2 = 6
  · rw [if_pos h6]
    cases hr : gget g k.row 7 with
    | none => rfl
    | some rook =>
      show dget (if checkRook k (some rook) = true
        then dput cs (k.row, sq.2) (MVal.castle rook (k.row, 5)) else cs) (k.row, 2) = _
      by_cases hok : checkRook k (some rook) = true
      · rw [if_pos hok, h6, dget_dput_ne sq26_ne]
      · rw [if_neg hok]
  · rw [if_neg h6]

theorem fold_dget_q {g : Grid} {k : Piece} :
    ∀ (l : List Sq) (cs : Moves),
      dget (castleFold g k l cs) (k.row, 2) =
        if (∃ sq ∈ l, sq.2 = 1) ∧ checkRook k (gget g k.row 0) = true then
          (gget g k.row 0).map (fun rk => MVal.castle rk (k.row, 3))
        else dget cs (k.row, 2) := by
  intro l
  induction l with
  | nil =>
    intro cs
    rw [if_neg (by rintro ⟨⟨sq, hsq, _⟩, _⟩; cases hsq)]
    rfl
  | cons sq rest ih =>
    intro cs
    show dget (castleFold g k rest (castleStepK g k sq (castleStepQ g k sq cs))) _ = _
    rw [ih, stepK_dget_q, stepQ_dget_q]
    by_cases hok : checkRook k (gget g k.row 0) = true
    · by_cases hex : ∃ s ∈ rest, s.2 = 1
      · rw [if_pos ⟨hex, hok⟩, if_pos ⟨hex.elim (fun s hs => ⟨s, List.mem_cons_of_mem _ hs.1,
          hs.2⟩), hok⟩]
      · rw [if_neg (by rintro ⟨h, _⟩; exact hex h)]
        by_cases h1 : sq.2 = 1
        · rw [if_pos ⟨h1, hok⟩, if_pos ⟨⟨sq, List.mem_cons_self _ _, h1⟩, hok⟩]
        · rw [if_neg (by rintro ⟨hc, _⟩; exact h1 hc),
            if_neg (by rintro ⟨⟨s, hs, hc⟩, _⟩; rcases List.mem_cons.1 hs with rfl | hs2
                       · exact h1 hc
                       · exact hex ⟨s, hs2, hc⟩)]
    · rw [if_neg (by rintro ⟨_, hc⟩; exact hok hc),
        if_neg (by rintro ⟨_, hc⟩; exact hok hc),
        if_neg (by rintro ⟨_, hc⟩; exact hok hc)]

theorem fold_dget_k {g : Grid} {k : Piece} :
    ∀ (l : List Sq) (cs : Moves),
      dget (castleFold g k l cs) (k.row, 6) =
        if (∃ sq ∈ l, sq.2 = 6) ∧ checkRook k (gget g k.row 7) = true then
          (gget g k.row 7).map (fun rk => MVal.castle rk (k.row, 5))
        else dget cs (k.row, 6) := by
  intro l
  induction l with
  | nil =>
    intro cs
    rw [if_neg (by rintro ⟨⟨sq, hsq, _⟩, _⟩; cases hsq)]
    rfl
  | cons sq rest ih =>
    intro cs
    show dget (castleFold g k rest (castleStepK g k sq (castleStepQ g k sq cs))) _ = _
    rw [ih, stepK_dget_k, stepQ_dget_k]
    by_cases hok : checkRook k (gget g k.row 7) = true
    · by_cases hex : ∃ s ∈ rest, s.2 = 6
      · rw [if_pos ⟨hex, hok⟩, if_pos ⟨hex.elim (fun s hs => ⟨s, List.mem_cons_of_mem _ hs.1,
          hs.2⟩), hok⟩]
      · rw [if_neg (by rintro ⟨h, _⟩; exact hex h)]
        by_cases h6 : sq.2 = 6
        · rw [if_pos ⟨h6, hok⟩, if_pos ⟨⟨sq, List.mem_cons_self _ _, h6⟩, hok⟩]
        · rw [if_neg (by rintro ⟨hc, _⟩; exact h6 hc),
            if_neg (by rintro ⟨⟨s, hs, hc⟩, _⟩; rcases List.mem_cons.1 hs with rfl | hs2
                       · exact h6 hc
                       · exact hex ⟨s, hs2, hc⟩)]
    · rw [if_neg (by rintro ⟨_, hc⟩; exact hok hc),
        if_neg (by rintro ⟨_, hc⟩; exact hok hc),
        if_neg (by rintro ⟨_, hc⟩; exact hok hc)]

/-- C3 (amended).  For a king standing on its initial column 4 (with an
in-bounds row), `King.castle` produces a castle descriptor for a side
iff the king has not yet moved, the squares strictly between the king
and that side's corner are empty — except that the square adjacent to
the corner (column 1, resp. 6) may also hold an ENEMY piece, recorded by
the sliding walk as a capture — and the corner square holds a piece of
kind rook of the king's team.  The rook's has-moved flag is NOT
examined, and no attack check on the traversed squares is performed.
There is exactly one descriptor per eligible side: kingside to (row,6)
with the rook relocated to (row,5), queenside to (row,2) with the rook
to (row,3), and every descriptor's destination is one of those two keys.
Once the king itself has moved (`_first_turn` false, which no operation
resets) castle returns the empty dictionary, so the option never
reappears; a moved rook that has returned to its corner does not prevent
castling. -/
theorem castle_characterization (g : Grid) (k : Piece)
    (hc : k.col = 4) (hr0 : 0 ≤ k.row) (hr7 : k.row ≤ 7) :
    (∀ v, dget (castle g k) (k.row, 2) = some v ↔
      (k.firstTurn = true ∧ gget g k.row 3 = none ∧ gget g k.row 2 = none ∧
       (gget g k.row 1 = none ∨ ∃ q, gget g k.row 1 = some q ∧ ¬ q.team = k.team) ∧
       ∃ rk, gget g k.row 0 = some rk ∧ rk.kind = PKind.rook ∧ rk.team = k.team ∧
         v = MVal.castle rk (k.row, 3))) ∧
    (∀ v, dget (castle g k) (k.row, 6) = some v ↔
      (k.firstTurn = true ∧ gget g k.row 5 = none ∧
       (gget g k.row 6 = none ∨ ∃ q, gget g k.row 6 = some q ∧ ¬ q.team = k.team) ∧
       ∃ rk, gget g k.row 7 = some rk ∧ rk.kind = PKind.rook ∧ rk.team = k.team ∧
         v = MVal.castle rk (k.row, 5))) ∧
    (∀ e ∈ castle g k, e.1 = (k.row, 2) ∨ e.1 = (k.row, 6)) ∧
    (k.firstTurn = false → castle g k = []) := by
  have hem : k.firstTurn = false → castle g k = [] := by
    intro hft
    simp [castle, hft, keys, castleFold]
  have hkeys : ∀ e ∈ castle g k, e.1 = (k.row, 2) ∨ e.1 = (k.row, 6) := by
    intro e he
    simp only [castle] at he
    rcases castleFold_mem _ _ _ he with h | h | h
    · cases h
    · exact Or.inl h.1
    · exact Or.inr h.1
  by_cases hft : k.firstTurn = true
  · have hcastle : castle g k = castleFold g k (keys (dupdate
        (move g slideFuel k.row 3 k.team 0 (-1) true false)
        (move g slideFuel k.row 5 k.team 0 1 true false))) [] := by
      simp only [castle, hft, if_true]
      rw [hc]
      norm_num
    have htq : (∃ sq ∈ keys (dupdate
        (move g slideFuel k.row 3 k.team 0 (-1) true false)
        (move g slideFuel k.row 5 k.team 0 1 true false)), sq.2 = 1) ↔
        (gget g k.row 3 = none ∧ gget g k.row 2 = none ∧
         (gget g k.row 1 = none ∨ ∃ q, gget g k.row 1 = some q ∧ ¬ q.team = k.team)) := by
      constructor
      · rintro ⟨sq, hsq, h1⟩
        have hrow : sq.1 = k.row := by
          obtain ⟨entry, hentry, hkeyeq⟩ := mem_keys.1 hsq
          rcases mem_dupdate hentry with hcx | hcx
          · rw [← hkeyeq]; exact move_row0 _ _ _ _ _ _ hcx
          · rw [← hkeyeq]; exact move_row0 _ _ _ _ _ _ hcx
        have hsq1 : ((k.row, 1) : Sq) ∈ keys (dupdate
            (move g slideFuel k.row 3 k.team 0 (-1) true false)
            (move g slideFuel k.row 5 k.team 0 1 true false)) := by
          have : sq = ((k.row, 1) : Sq) := Prod.ext hrow h1
          rwa [this] at hsq
        rcases keys_dupdate.1 hsq1 with hw | he2
        · exact (slide_reach_west hr0 hr7).1 hw
        · exfalso
          obtain ⟨entry, hentry, hkeyeq⟩ := mem_keys.1 he2
          have := move_col_ge (by norm_num) _ _ _ _ _ _ hentry
          rw [hkeyeq] at this
          dsimp only at this
          omega
      · intro hq
        exact ⟨(k.row, 1), keys_dupdate.2 (Or.inl ((slide_reach_west hr0 hr7).2 hq)), rfl⟩
    have htk : (∃ sq ∈ keys (dupdate
        (move g slideFuel k.row 3 k.team 0 (-1) true false)
        (move g slideFuel k.row 5 k.team 0 1 true false)), sq.2 = 6) ↔
        (gget g k.row 5 = none ∧
         (gget g k.row 6 = none ∨ ∃ q, gget g k.row 6 = some q ∧ ¬ q.team = k.team)) := by
      constructor
      · rintro ⟨sq, hsq, h6⟩
        have hrow : sq.1 = k.row := by
          obtain ⟨entry, hentry, hkeyeq⟩ := mem_keys.1 hsq
          rcases mem_dupdate hentry with hcx | hcx
          · rw [← hkeyeq]; exact move_row0 _ _ _ _ _ _ hcx
          · rw [← hkeyeq]; exact move_row0 _ _ _ _ _ _ hcx
        have hsq6 : ((k.row, 6) : Sq) ∈ keys (dupdate
            (move g slideFuel k.row 3 k.team 0 (-1) true false)
            (move g slideFuel k.row 5 k.team 0 1 true false)) := by
          have : sq = ((k.row, 6) : Sq) := Prod.ext hrow h6
          rwa [this] at hsq
        rcases keys_dupdate.1 hsq6 with hw | he2
        · exfalso
          obtain ⟨entry, hentry, hkeyeq⟩ := mem_keys.1 hw
          have := move_col_le (by norm_num) _ _ _ _ _ _ hentry
          rw [hkeyeq] at this
          dsimp only at this
          omega
        · exact (slide_reach_east hr0 hr7).1 he2
      · intro hq
        exact ⟨(k.row, 6), keys_dupdate.2 (Or.inr ((slide_reach_east hr0 hr7).2 hq)), rfl⟩
    refine ⟨?_, ?_, hkeys, hem⟩
    · intro v
      rw [hcastle, fold_dget_q]
      by_cases hcond : (∃ sq ∈ keys (dupdate
          (move g slideFuel k.row 3 k.team 0 (-1) true false)
          (move g slideFuel k.row 5 k.team 0 1 true false)), sq.2 = 1) ∧
          checkRook k (gget g k.row 0) = true
      · rw [if_pos hcond]
        cases hr : gget g k.row 0 with
        | none =>
          have := hcond.2
          rw [hr] at this
          simp [checkRook] at this
        | some rook =>
          have hok := hcond.2
          rw [hr] at hok
          simp only [checkRook, decide_eq_true_eq] at hok
          constructor
          · intro hv
            injection hv with hv
            obtain ⟨h3, h2, h1⟩ := htq.1 hcond.1
            exact ⟨hft, h3, h2, h1, rook, rfl, hok.1, hok.2, hv.symm⟩
          · rintro ⟨_, _, _, _, rk, hrk, _, _, hv⟩
            injection hrk with hrk
            rw [hv, hrk]
            rfl
      · rw [if_neg hcond]
        constructor
        · intro hcon
          cases hcon
        · rintro ⟨_, h3, h2, h1, rk, hrk, hkind, hteam, _⟩
          exact absurd ⟨htq.2 ⟨h3, h2, h1⟩, by
            rw [hrk]
            simp [checkRook, hkind, hteam]⟩ hcond
    · intro v
      rw [hcastle, fold_dget_k]
      by_cases hcond : (∃ sq ∈ keys (dupdate
          (move g slideFuel k.row 3 k.team 0 (-1) true false)
          (move g slideFuel k.row 5 k.team 0 1 true false)), sq.2 = 6) ∧
          checkRook k (gget g k.row 7) = true
      · rw [if_pos hcond]
        cases hr : gget g k.row 7 with
        | none =>
          have := hcond.2
          rw [hr] at this
          simp [checkRook] at this
        | some rook =>
          have hok := hcond.2
          rw [hr] at hok
          simp only [checkRook, decide_eq_true_eq] at hok
          constructor
          · intro hv
            injection hv with hv
            obtain ⟨h5, h6⟩ := htk.1 hcond.1
            exact ⟨hft, h5, h6, rook, rfl, hok.1, hok.2, hv.symm⟩
          · rintro ⟨_, _, _, rk, hrk, _, _, hv⟩
            injection hrk with hrk
            rw [hv, hrk]
            rfl
      · rw [if_neg hcond]
        constructor
        · intro hcon
          cases hcon
        · rintro ⟨_, h5, h6, rk, hrk, hkind, hteam, _⟩
          exact absurd ⟨htk.2 ⟨h5, h6⟩, by
            rw [hrk]
            simp [checkRook, hkind, hteam]⟩ hcond
  · have hft' : k.firstTurn = false := by
      cases hfb : k.firstTurn
      · rfl
      · exact absurd hfb hft
    have hnil := hem hft'
    refine ⟨?_, ?_, hkeys, hem⟩
    · intro v
      rw [hnil]
      constructor
      · intro hcon
        cases hcon
      · rintro ⟨hcon, _⟩
        rw [hft'] at hcon
        cases hcon
    · intro v
      rw [hnil]
      constructor
      · intro hcon
        cases hcon
      · rintro ⟨hcon, _⟩
        rw [hft'] at hcon
        cases hcon

def cexGridC3 : Grid :=
  gset (gset (gset (fun _ _ => none)
    7 4 (some ⟨Team.white, PKind.king, 7, 4, true, false⟩))
    7 7 (some ⟨Team.white, PKind.rook, 7, 7, false, false⟩))
    0 5 (some ⟨Team.black, PKind.rook, 0, 5, false, false⟩)

/-- Counterexample to C3 as stated: the kingside corner rook has already
moved (`_first_turn` false) and the square the king would cross, (7,5),
is attacked by a black rook — it appears in that rook's raw move keys —
yet `King.castle` still returns the kingside castle descriptor. -/
theorem castle_counterexample :
    dget (castle cexGridC3 ⟨Team.white, PKind.king, 7, 4, true, false⟩) (7, 6)
      = some (MVal.castle ⟨Team.white, PKind.rook, 7, 7, false, false⟩ (7, 5)) ∧
    (⟨Team.white, PKind.rook, 7, 7, false, false⟩ : Piece).firstTurn = false ∧
    ((7, 5) : Sq) ∈ keys
      (getMoves ⟨Team.black, PKind.rook, 0, 5, false, false⟩ cexGridC3) := by
  refine ⟨?_, ?_, ?_⟩ <;> decide

def c3Grid : Grid :=
  gset (gset (fun _ _ => none)
    7 4 (some ⟨Team.white, PKind.king, 7, 4, true, false⟩))
    7 0 (some ⟨Team.white, PKind.rook, 7, 0, true, false⟩)

theorem castle_characterization_witness :
    dget (castle c3Grid (⟨Team.white, PKind.king, 7, 4, true, false⟩ : Piece)) (7, 2)
      = some (MVal.castle ⟨Team.white, PKind.rook, 7, 0, true, false⟩ (7, 3)) := by
  have h := castle_characterization c3Grid ⟨Team.white, PKind.king, 7, 4, true, false⟩
    rfl (by decide) (by decide)
  exact (h.1 (MVal.castle ⟨Team.white, PKind.rook, 7, 0, true, false⟩ (7, 3))).2
    ⟨rfl, by decide, by decide, Or.inl (by decide),
      ⟨⟨Team.white, PKind.rook, 7, 0, true, false⟩, by decide, rfl, rfl, rfl⟩⟩
